import Mathlib

/-!
Verification of the `piranhas` Go library (github.com/first-amber-fish/piranhas)
against its natural-language specification.

The development shallowly embeds the two services of the library:

* the path tokenizer and resolver (`path.go`: `parsePath`, `returnPathElement`,
  `getPathContainer`, `getInterfaceOfValue`, `GetPathInterface`), and
* the defaulting walker (`defaults.go`: `SetDefaults`, `setDefaultsStruct`,
  `setDefaultsSlice`, `setDefaultsMap`, `parseDefaultValue`) together with
  the complex-literal parser (`parseComplex`) and the field write helper
  (`setUnexportedField`).

Machine integers are modelled as `Int`/`Nat` with explicit range checks,
floating-point values as exact rationals (decimal literals are parsed
exactly; IEEE rounding is not modelled), and Go's reflective object graphs
as a deep value type `GoVal` carrying the reflect-level type information
the walkers consult.  Go panics (reflect type-mismatch and nil-dereference
panics) are modelled as explicit abnormal outcomes.
-/

set_option autoImplicit false

attribute [local semireducible] Rat.mul Rat.inv Rat.add Rat.sub

namespace Piranhas

/-! ## Character classes (Go `unicode` package)

`goIsSpace c` is Go's `unicode.IsSpace`, i.e. the Unicode White_Space
property; the listed code points are the complete set. -/

def goIsSpace (c : Char) : Bool :=
  (9 ≤ c.toNat && c.toNat ≤ 13) || c.toNat = 32 || c.toNat = 0x85 ||
  c.toNat = 0xA0 || c.toNat = 0x1680 ||
  (0x2000 ≤ c.toNat && c.toNat ≤ 0x200A) ||
  c.toNat = 0x2028 || c.toNat = 0x2029 || c.toNat = 0x202F ||
  c.toNat = 0x205F || c.toNat = 0x3000

/-- `strings.TrimSpace`: drop leading and trailing white space. -/
def trimSpaceGo (cs : List Char) : List Char :=
  ((cs.dropWhile goIsSpace).reverse.dropWhile goIsSpace).reverse

/-- Helper for `strings.TrimPrefix`: remove the exact char sequence `p`
from the front of `cs`, or return `none` if it is not a prefix. -/
def dropChars : List Char → List Char → Option (List Char)
  | [], cs => some cs
  | _ :: _, [] => none
  | p :: ps, c :: cs => if c = p then dropChars ps cs else none

/-- `strings.TrimPrefix`: remove `p` from the front of `cs` when present. -/
def trimPfx (p cs : List Char) : List Char := (dropChars p cs).getD cs

/-! ## Path tokenizer (`parsePath`, path.go lines 32-177)

The tokenizer is a character state machine with an accumulator `acc`,
the completed elements `elems`, and three mode flags mirroring the Go
locals `inEscapeMode`, `inQuotes`, `inSquareBrackets`. -/

/-- The error sentinels of path.go used by the tokenizer. -/
inductive PathErr where
  | endBracketsOpen       -- errEndSquareBracketsOpen
  | nestedBrackets        -- errNesstedSquareBracketsNotPermitted
  | lostCloseBracket      -- errLostCloseSquareBracket
  | unknownEscChar        -- errUnknownEscChar
  | controlChar           -- errControlChar
  | escape2Chars          -- errEscape2Chars
  | spaceInElement        -- errSpaceInElement
  | endQuotesOpen         -- errEndQuotsOpen
  | objNotExists          -- errObjNotExists
  | pathToShort           -- errPathToShort
  | pathToLong            -- errPathToLong
  | wrongElementType      -- errWrongElementType
  | notInterfaceable      -- errIsNotInterfaceable
  | unsupportedKeyType    -- fmt.Errorf("unsupported key type: ...")
  deriving DecidableEq, Repr

structure TokSt where
  acc : List Char
  elems : List (List Char)
  esc : Bool
  quot : Bool
  brack : Bool
  deriving DecidableEq, Repr

def TokSt.init : TokSt := ⟨[], [], false, false, false⟩

/-- `if element != "" { pathelements = append(pathelements, element); element = "" }` -/
def flushElem (st : TokSt) : TokSt :=
  if st.acc = [] then st else { st with acc := [], elems := st.elems ++ [st.acc] }

def pushChar (st : TokSt) (c : Char) : TokSt := { st with acc := st.acc ++ [c] }

/-- The `'.'` and `'/'` cases of the switch (identical bodies). -/
def stepSep (st : TokSt) (c : Char) : Except PathErr TokSt :=
  if st.esc then .ok { pushChar st c with esc := false }
  else if st.quot then .ok (pushChar st c)
  else if st.brack then .error .endBracketsOpen
  else .ok (flushElem st)

/-- The `'\\'` case of the switch. -/
def stepBackslash (st : TokSt) : Except PathErr TokSt :=
  if st.esc then .ok { pushChar st '\\' with esc := false }
  else if st.quot then .ok { st with esc := true }
  else if st.brack then .error .endBracketsOpen
  else .ok (flushElem st)

/-- The `'['` case of the switch. -/
def stepOpenBracket (st : TokSt) : Except PathErr TokSt :=
  if st.esc then .ok { pushChar st '[' with esc := false }
  else if st.quot then .ok (pushChar st '[')
  else if st.brack then .error .nestedBrackets
  else .ok { flushElem st with brack := true }

/-- The `']'` case of the switch. -/
def stepCloseBracket (st : TokSt) : Except PathErr TokSt :=
  if st.esc then .ok { pushChar st ']' with esc := false }
  else if st.quot then .ok (pushChar st ']')
  else if st.brack then .ok { flushElem st with brack := false }
  else .error .lostCloseBracket

/-- The `'"'` case of the switch. -/
def stepQuote (st : TokSt) : Except PathErr TokSt :=
  if st.esc then .ok { pushChar st '"' with esc := false }
  else if st.quot then .ok { st with quot := false }
  else .ok { st with quot := true }

/-- The `default` case of the switch. -/
def stepOther (st : TokSt) (c : Char) : Except PathErr TokSt :=
  if st.esc then .error .unknownEscChar
  else if st.quot then
    if c < ' ' then .error .controlChar else .ok (pushChar st c)
  else
    if c < ' ' then .error .controlChar
    else if goIsSpace c then .error .spaceInElement
    else .ok (pushChar st c)

/-- One iteration of the `for _, c := range path` loop. -/
def stepTok (st : TokSt) (c : Char) : Except PathErr TokSt :=
  if c = '.' then stepSep st c
  else if c = '\\' then stepBackslash st
  else if c = '/' then stepSep st c
  else if c = '[' then stepOpenBracket st
  else if c = ']' then stepCloseBracket st
  else if c = '"' then stepQuote st
  else stepOther st c

/-- The end-of-input checks and final flush (path.go lines 153-166). -/
def finishTok (st : TokSt) : Except PathErr (List (List Char)) :=
  if st.esc then .error .escape2Chars
  else if st.quot then .error .endQuotesOpen
  else if st.brack then .error .endBracketsOpen
  else .ok (flushElem st).elems

def runTok (st : TokSt) : List Char → Except PathErr (List (List Char))
  | [] => finishTok st
  | c :: cs =>
    match stepTok st c with
    | .error e => .error e
    | .ok st' => runTok st' cs

/-- The preprocessing of `parsePath`: `strings.TrimSpace`, then
`strings.TrimPrefix "$.."`, then `strings.TrimPrefix "$."`. -/
def goPreprocess (s : String) : List Char :=
  trimPfx ['$', '.'] (trimPfx ['$', '.', '.'] (trimSpaceGo s.toList))

/-- `parsePath` (path.go lines 32-177).  Returns the element list or the
first error.  The final `filter` mirrors the "remove empty elements"
loop of the source. -/
def parsePath (s : String) : Except PathErr (List String) :=
  let cs := goPreprocess s
  if trimSpaceGo cs = [] then .ok []
  else
    match runTok TokSt.init cs with
    | .error e => .error e
    | .ok es => .ok ((es.filter (· ≠ [])).map List.asString)

/-! ### Control characters always stop the tokenizer

Every mode of the state machine rejects a character below `' '`: escape
mode fails with the unknown-escape error, quoted and normal mode with the
control-character error. -/

theorem stepTok_control (c : Char) (hc : c < ' ') (st : TokSt) :
    ∃ e, stepTok st c = .error e := by
  have h1 : c ≠ '.' := by rintro rfl; exact absurd hc (by decide)
  have h2 : c ≠ '\\' := by rintro rfl; exact absurd hc (by decide)
  have h3 : c ≠ '/' := by rintro rfl; exact absurd hc (by decide)
  have h4 : c ≠ '[' := by rintro rfl; exact absurd hc (by decide)
  have h5 : c ≠ ']' := by rintro rfl; exact absurd hc (by decide)
  have h6 : c ≠ '"' := by rintro rfl; exact absurd hc (by decide)
  simp only [stepTok, h1, h2, h3, h4, h5, h6, if_false, ite_false, stepOther]
  by_cases he : st.esc
  · exact ⟨.unknownEscChar, by simp [he]⟩
  · by_cases hq : st.quot
    · exact ⟨.controlChar, by simp [he, hq, hc]⟩
    · exact ⟨.controlChar, by simp [he, hq, hc]⟩

theorem runTok_control :
    ∀ (cs : List Char) (st : TokSt),
      cs.any (fun c => decide (c < ' ')) = true →
      ∃ e, runTok st cs = .error e := by
  intro cs
  induction cs with
  | nil => intro st h; simp at h
  | cons c cs ih =>
    intro st h
    by_cases hc : c < ' '
    · obtain ⟨e, he⟩ := stepTok_control c hc st
      exact ⟨e, by simp [runTok, he]⟩
    · have hcs : cs.any (fun c => decide (c < ' ')) = true := by
        simpa [hc] using h
      cases hst : stepTok st c with
      | error e => exact ⟨e, by simp [runTok, hst]⟩
      | ok st' =>
        obtain ⟨e, he⟩ := ih st' hcs
        exact ⟨e, by simp [runTok, hst, he]⟩

theorem dropWhile_head_false {p : Char → Bool} :
    ∀ {l : List Char} {c : Char} {r : List Char},
      l.dropWhile p = c :: r → p c = false := by
  intro l
  induction l with
  | nil => intro c r h; simp [List.dropWhile] at h
  | cons a l ih =>
    intro c r h
    by_cases ha : p a
    · exact ih (by simpa [List.dropWhile, ha] using h)
    · rw [List.dropWhile_cons_of_neg ha] at h
      cases h
      simpa using ha

/-- A nonempty `trimSpaceGo` result never ends in white space. -/
theorem trimSpaceGo_getLast_not_space {cs : List Char} {c : Char}
    (h : (trimSpaceGo cs).getLast? = some c) : goIsSpace c = false := by
  unfold trimSpaceGo at h
  rw [List.getLast?_reverse] at h
  cases hd : (cs.dropWhile goIsSpace).reverse.dropWhile goIsSpace with
  | nil => rw [hd] at h; simp at h
  | cons a r =>
    rw [hd] at h
    simp only [List.head?] at h
    cases h
    exact dropWhile_head_false hd

/-- `dropChars p cs = some r` means `r` is a suffix of `cs`. -/
theorem dropChars_suffix :
    ∀ (p cs r : List Char), dropChars p cs = some r → ∃ q, cs = q ++ r := by
  intro p
  induction p with
  | nil => intro cs r h; cases h; exact ⟨[], rfl⟩
  | cons a p ih =>
    intro cs r h
    cases cs with
    | nil => simp [dropChars] at h
    | cons c cs =>
      by_cases hc : c = a
      · obtain ⟨q, hq⟩ := ih cs r (by simpa [dropChars, hc] using h)
        exact ⟨c :: q, by simp [hq]⟩
      · simp [dropChars, hc] at h

/-- `trimPfx` keeps the last character of a nonempty result equal to the
last character of its input. -/
theorem trimPfx_getLast (p cs : List Char) {c : Char}
    (h : (trimPfx p cs).getLast? = some c) : cs.getLast? = some c := by
  unfold trimPfx at h
  cases hd : dropChars p cs with
  | none => rwa [hd] at h
  | some r =>
    rw [hd] at h
    obtain ⟨q, hq⟩ := dropChars_suffix p cs r hd
    subst hq
    rw [List.getLast?_append_of_ne_nil]
    · exact h
    · rintro rfl; simp at h

/-- If every character of `cs` is white space then `trimSpaceGo cs = []`. -/
theorem trimSpaceGo_eq_nil_of_all {cs : List Char}
    (h : ∀ c ∈ cs, goIsSpace c = true) : trimSpaceGo cs = [] := by
  unfold trimSpaceGo
  have h1 : cs.dropWhile goIsSpace = [] := List.dropWhile_eq_nil_iff.2 h
  simp [h1, List.dropWhile]

/-- If `trimSpaceGo cs = []` then every character of `cs` is white space. -/
theorem all_space_of_trimSpaceGo_eq_nil {cs : List Char}
    (h : trimSpaceGo cs = []) : ∀ c ∈ cs, goIsSpace c = true := by
  unfold trimSpaceGo at h
  rw [List.reverse_eq_nil_iff] at h
  have h2 : ∀ c ∈ (cs.dropWhile goIsSpace).reverse, goIsSpace c = true :=
    List.dropWhile_eq_nil_iff.mp h
  intro c hc
  have hc2 : c ∈ cs.takeWhile goIsSpace ++ cs.dropWhile goIsSpace := by
    rw [List.takeWhile_append_dropWhile]; exact hc
  rcases List.mem_append.mp hc2 with h3 | h3
  · exact List.mem_takeWhile_imp h3
  · exact h2 c (List.mem_reverse.mpr h3)

/-- A preprocessed path containing a control character does not trim to
empty, because preprocessing already removed trailing white space. -/
theorem goPreprocess_trim_ne_nil {s : String}
    (h : (goPreprocess s).any (fun c => decide (c < ' ')) = true) :
    trimSpaceGo (goPreprocess s) ≠ [] := by
  intro hnil
  have hne : goPreprocess s ≠ [] := by
    rintro he; rw [he] at h; simp at h
  cases hl : (goPreprocess s).getLast? with
  | none => exact hne (List.getLast?_eq_none_iff.mp hl)
  | some c =>
    have hc1 : (trimSpaceGo s.toList).getLast? = some c := by
      have := trimPfx_getLast ['$', '.', '.'] (trimSpaceGo s.toList)
        (trimPfx_getLast ['$', '.'] _ hl)
      exact this
    have hfalse : goIsSpace c = false := trimSpaceGo_getLast_not_space hc1
    have hmem : c ∈ goPreprocess s := by
      obtain ⟨hne2, heq⟩ := List.mem_getLast?_eq_getLast
        (show c ∈ (goPreprocess s).getLast? by simp [hl])
      rw [heq]; exact List.getLast_mem hne2
    have htrue : goIsSpace c = true :=
      all_space_of_trimSpaceGo_eq_nil hnil c hmem
    rw [hfalse] at htrue
    exact Bool.false_ne_true htrue

/-! ## The object-graph data model

`Ty` is the reflect-level type information the library consults: the kind
of a type, the bit width reported by `Type.Bits()`, and the two type names
it compares against (`"time.Duration"`, `"time.Time"`).  `GoVal` is a deep
embedding of graph values.  Struct fields carry their name, the `default`
and `layout` tags, and their declared type (a nil pointer field still has
a type, which drives the walker's dispatch).  Slices carry a `ref`
identifier naming their backing array, so that the aliasing behaviour of
`reflect.Value.Bytes` is observable; maps are association lists.

Not modelled: array kinds (only slices), IEEE rounding (floats are exact
rationals), the read-only flag of values reached through unexported
fields (`CanInterface` is taken to be true), and the internals of
`time.Time`/`time.Location` (a timestamp is a leaf `TimeRep`). -/

/-- The wall-clock content of a `time.Time` value: an initial literal
value, the result of `time.Parse layout text`, or `time.Now()` at tick
`n`.  `hasLoc` records whether the internal location pointer is set. -/
inductive TimeRep where
  | lit (wall : Nat) (ext : Int) (hasLoc : Bool)
  | parsed (layout text : String)
  | now (n : Nat)
  deriving DecidableEq, Repr

inductive Ty where
  | str
  | bool
  | int (bits : Nat)
  | uint (bits : Nat)
  | float (bits : Nat)
  | cplx (bits : Nat)
  | duration
  | time
  | uptr
  | ptr (t : Ty)
  | slice (elem : Ty)
  | map (k v : Ty)
  | struct
  deriving DecidableEq, Repr

mutual
inductive GoVal where
  | vstr (s : String)
  | vbool (b : Bool)
  | vint (bits : Nat) (n : Int)
  | vuint (bits : Nat) (n : Nat)
  | vfloat (bits : Nat) (q : ℚ)
  | vcplx (bits : Nat) (re im : ℚ)
  | vdur (n : Int)
  | vtime (t : TimeRep)
  | vuptr (n : Nat)
  | vptr (target : Ty) (v : OptVal)
  | vstruct (fs : Fields)
  | vslice (elem : Ty) (ref : Nat) (xs : Elems)
  | vmap (k v : Ty) (es : Entries)

inductive OptVal where
  | none
  | some (v : GoVal)

inductive Fields where
  | nil
  | cons (f : FieldV) (rest : Fields)

inductive FieldV where
  | mk (name : String) (dTag lTag : String) (declTy : Ty) (val : GoVal)

inductive Elems where
  | nil
  | cons (v : GoVal) (rest : Elems)

inductive Entries where
  | nil
  | cons (k : GoVal) (v : GoVal) (rest : Entries)
end

def FieldV.name : FieldV → String
  | .mk n _ _ _ _ => n

def FieldV.dTag : FieldV → String
  | .mk _ d _ _ _ => d

def FieldV.lTag : FieldV → String
  | .mk _ _ l _ _ => l

def FieldV.declTy : FieldV → Ty
  | .mk _ _ _ t _ => t

def FieldV.val : FieldV → GoVal
  | .mk _ _ _ _ v => v

def Elems.length : Elems → Nat
  | .nil => 0
  | .cons _ r => r.length + 1

def Elems.get? : Elems → Nat → Option GoVal
  | .nil, _ => Option.none
  | .cons v _, 0 => Option.some v
  | .cons _ r, n + 1 => r.get? n

/-- `reflect.Value.FieldByName`: exact (case-sensitive) name lookup. -/
def Fields.byName : Fields → String → Option FieldV
  | .nil, _ => Option.none
  | .cons f r, n => if f.name = n then Option.some f else r.byName n

/-- Equality of Go map keys, for the key kinds the resolver can build. -/
def keyEq : GoVal → GoVal → Bool
  | .vstr a, .vstr b => a = b
  | .vbool a, .vbool b => a = b
  | .vint w a, .vint w' b => w = w' && a = b
  | .vuint w a, .vuint w' b => w = w' && a = b
  | .vfloat w a, .vfloat w' b => w = w' && a = b
  | .vdur a, .vdur b => a = b
  | _, _ => false

/-- `reflect.Value.MapIndex`. -/
def Entries.find? : Entries → GoVal → Option GoVal
  | .nil, _ => Option.none
  | .cons k v r, key => if keyEq k key then Option.some v else r.find? key

/-! ## Go numeric/boolean string parsing (`strconv`)

The decimal subset of `strconv`: `ParseInt`/`ParseUint` base 10 with the
bit-size range check, `ParseFloat` for exact decimal/exponential literals,
`ParseBool` for the canonical spellings.  Not modelled: hex/octal/binary
floats, `inf`/`NaN`, digit-separating underscores. -/

def parseDigits : List Char → Option Nat
  | [] => Option.none
  | cs =>
    if cs.all (·.isDigit) then
      Option.some (cs.foldl (fun a c => a * 10 + (c.toNat - 48)) 0)
    else Option.none

/-- `strconv.ParseUint(s, 10, bits)`: plain digits, no sign, `< 2^bits`. -/
def parseUintGo (s : String) (bits : Nat) : Option Nat :=
  match parseDigits s.toList with
  | Option.none => Option.none
  | Option.some n => if n < 2 ^ bits then Option.some n else Option.none

/-- `strconv.ParseInt(s, 10, bits)`: optional sign, digits, range-checked
to `[-2^(bits-1), 2^(bits-1)-1]`. -/
def parseIntGo (s : String) (bits : Nat) : Option Int :=
  let signed : Bool × List Char :=
    match s.toList with
    | '+' :: cs => (false, cs)
    | '-' :: cs => (true, cs)
    | cs => (false, cs)
  match parseDigits signed.2 with
  | Option.none => Option.none
  | Option.some n =>
    if signed.1 then
      if (n : Int) ≤ 2 ^ (bits - 1) then Option.some (-(n : Int)) else Option.none
    else
      if (n : Int) ≤ 2 ^ (bits - 1) - 1 then Option.some (n : Int) else Option.none

/-- `strconv.Atoi` = `ParseInt(s, 10, 0)` at the 64-bit platform width. -/
def atoiGo (s : String) : Option Int := parseIntGo s 64

/-- `strconv.ParseBool`. -/
def parseBoolGo (s : String) : Option Bool :=
  if s = "1" || s = "t" || s = "T" || s = "TRUE" || s = "true" || s = "True" then
    Option.some true
  else if s = "0" || s = "f" || s = "F" || s = "FALSE" || s = "false" || s = "False" then
    Option.some false
  else Option.none

def natOfDigits (cs : List Char) : Nat :=
  cs.foldl (fun a c => a * 10 + (c.toNat - 48)) 0

/-- `strconv.ParseFloat` on decimal and exponential literals, as an exact
rational: `[sign] digits [. digits] [e|E [sign] digits]` with at least
one mantissa digit. -/
def parseFloatGo (s : String) : Option ℚ :=
  let signed : Bool × List Char :=
    match s.toList with
    | '+' :: cs => (false, cs)
    | '-' :: cs => (true, cs)
    | cs => (false, cs)
  let mant := signed.2.takeWhile (fun c => !(c = 'e' || c = 'E'))
  let expPart := signed.2.dropWhile (fun c => !(c = 'e' || c = 'E'))
  let ipart := mant.takeWhile (· ≠ '.')
  let rest := mant.dropWhile (· ≠ '.')
  let fpart : Option (List Char) :=
    match rest with
    | [] => Option.some []
    | _ :: r => if r.contains '.' then Option.none else Option.some r
  match fpart with
  | Option.none => Option.none
  | Option.some fp =>
    if ipart.all (·.isDigit) && fp.all (·.isDigit) && !(ipart = [] && fp = []) then
      let base : ℚ := (natOfDigits (ipart ++ fp) : ℚ) / (10 : ℚ) ^ fp.length
      let signedBase : ℚ := if signed.1 then -base else base
      match expPart with
      | [] => Option.some signedBase
      | _ :: ex =>
        let exSigned : Bool × List Char :=
          match ex with
          | '+' :: cs => (false, cs)
          | '-' :: cs => (true, cs)
          | cs => (false, cs)
        match parseDigits exSigned.2 with
        | Option.none => Option.none
        | Option.some e =>
          if exSigned.1 then Option.some (signedBase / (10 : ℚ) ^ e)
          else Option.some (signedBase * (10 : ℚ) ^ e)
    else Option.none

/-! ## Path resolver (`returnPathElement`, `getPathContainer`,
`getInterfaceOfValue`, path.go lines 182-425) -/

/-- The pointer-stripping loop shared by the resolver functions: `none`
means a nil pointer was reached. -/
def stripPtrs : GoVal → Option GoVal
  | .vptr _ .none => Option.none
  | .vptr _ (.some w) => stripPtrs w
  | v => Option.some v

/-- `getInterfaceOfValue` (path.go lines 318-414).  Scalar kinds are
returned as their scalar copy; an `Int64` named `time.Duration` as a
duration; `time.Time` is rebuilt from its wall/ext/loc representation
(`createTimeFromWallExtLoc`) as a fresh value with the same content; a
slice whose element kind is `Uint8` is returned via `objValue.Bytes()`,
i.e. the same backing array (the `ref` is preserved); everything else
falls through to the `CanInterface` fallback returning the value itself
(the read-only flag is not modelled, so the fallback always succeeds). -/
def getInterfaceOfValue (v : GoVal) : Except PathErr (Option GoVal) :=
  match stripPtrs v with
  | Option.none => .ok Option.none
  | Option.some w =>
    match w with
    | .vstr s => .ok (Option.some (.vstr s))
    | .vbool b => .ok (Option.some (.vbool b))
    | .vint bits n => .ok (Option.some (.vint bits n))
    | .vuint bits n => .ok (Option.some (.vuint bits n))
    | .vfloat bits q => .ok (Option.some (.vfloat bits q))
    | .vcplx bits re im => .ok (Option.some (.vcplx bits re im))
    | .vdur n => .ok (Option.some (.vdur n))
    | .vtime t => .ok (Option.some (.vtime t))
    | .vslice ety r xs => .ok (Option.some (.vslice ety r xs))
    | w => .ok (Option.some w)

/-- Conversion of a path element to a map key, per the map-key switch of
`getPathContainer` (path.go lines 261-298): parse failure yields the
segment-not-found error, an unsupported key kind the unsupported-key
error. -/
def keyFromString (kTy : Ty) (e : String) : Except PathErr GoVal :=
  match kTy with
  | .str => .ok (.vstr e)
  | .int bits =>
    match parseIntGo e bits with
    | Option.none => .error .objNotExists
    | Option.some n => .ok (.vint bits n)
  | .duration =>
    match parseIntGo e 64 with
    | Option.none => .error .objNotExists
    | Option.some n => .ok (.vdur n)
  | .uint bits =>
    match parseUintGo e bits with
    | Option.none => .error .objNotExists
    | Option.some n => .ok (.vuint bits n)
  | .float bits =>
    match parseFloatGo e with
    | Option.none => .error .objNotExists
    | Option.some q => .ok (.vfloat bits q)
  | .bool =>
    match parseBoolGo e with
    | Option.none => .error .objNotExists
    | Option.some b => .ok (.vbool b)
  | _ => .error .unsupportedKeyType

/-- The container dispatch of `getPathContainer` (path.go lines 242-305):
struct field lookup by exact name, slice indexing via `strconv.Atoi` with
bounds check, map lookup via key conversion. -/
def lookupStep (w : GoVal) (e : String) : Except PathErr GoVal :=
  match w with
  | .vstruct fs =>
    match fs.byName e with
    | Option.none => .error .objNotExists
    | Option.some f => .ok f.val
  | .vslice _ _ xs =>
    match atoiGo e with
    | Option.none => .error .objNotExists
    | Option.some i =>
      if i < 0 then .error .objNotExists
      else
        match xs.get? i.toNat with
        | Option.none => .error .objNotExists
        | Option.some x => .ok x
  | .vmap kTy _ es =>
    match keyFromString kTy e with
    | .error er => .error er
    | .ok k =>
      match es.find? k with
      | Option.none => .error .objNotExists
      | Option.some x => .ok x
  | _ => .error .wrongElementType

/-- `getPathContainer` (path.go lines 218-313).  Its own pointer loop is
dead code from the call sites (the input is already stripped); note the
source's inverted nil branch there returns not-found because the element
list is necessarily non-empty at that point.  The mutual recursion with
`returnPathElement` is realised by inlining one unfolding of
`returnPathElement`'s body at the recursive call (so that the definition
is structurally recursive on the element list); `returnPathElement`
below is definitionally that inlined body. -/
def getPathContainer (v : GoVal) : List String → Except PathErr (Option GoVal)
  | [] => .error .pathToShort
  | e :: rest =>
    match stripPtrs v with
    | Option.none => .ok Option.none
    | Option.some w =>
      match lookupStep w e with
      | .error er => .error er
      | .ok elem =>
        if rest = [] then getInterfaceOfValue elem
        else
          match stripPtrs elem with
          | Option.none =>
            if rest = [] then .ok Option.none else .error .pathToLong
          | Option.some w' =>
            match rest with
            | [] => getInterfaceOfValue w'
            | _ :: _ =>
              match w' with
              | .vstruct fs => getPathContainer (.vstruct fs) rest
              | .vslice t r xs => getPathContainer (.vslice t r xs) rest
              | .vmap k vt en => getPathContainer (.vmap k vt en) rest
              | _ => .error .pathToLong

/-- `returnPathElement` (path.go lines 182-214): strip pointers (a nil
pointer yields not-found when no elements remain, path-too-long
otherwise); with no elements left convert via `getInterfaceOfValue`;
otherwise descend into a container or fail path-too-long. -/
def returnPathElement (v : GoVal) (es : List String) :
    Except PathErr (Option GoVal) :=
  match stripPtrs v with
  | Option.none => if es = [] then .ok Option.none else .error .pathToLong
  | Option.some w =>
    match es with
    | [] => getInterfaceOfValue w
    | _ :: _ =>
      match w with
      | .vstruct fs => getPathContainer (.vstruct fs) es
      | .vslice t r xs => getPathContainer (.vslice t r xs) es
      | .vmap k vt en => getPathContainer (.vmap k vt en) es
      | _ => .error .pathToLong

/-- `GetPathInterface` (path.go lines 417-425). -/
def GetPathInterface (obj : GoVal) (path : String) :
    Except PathErr (Option GoVal) :=
  match parsePath path with
  | .error e => .error e
  | .ok es => returnPathElement obj es

/-! ## The complex-literal parser (`parseComplex`)

From the unnamed source file: remove all spaces, reject an empty string,
`strings.Split` on `"+"` requiring exactly two parts, float-parse the
first part, strip an optional `"i"` suffix (`strings.TrimSuffix`) from
the second part and float-parse it. -/

inductive CplxErr where
  | empty      -- errors.New("empty string")
  | format     -- errors.New("invalid format, expects 'a+bi'")
  | badFloat   -- the strconv.ParseFloat error
  deriving DecidableEq, Repr

/-- `strings.ReplaceAll s " " ""`. -/
def removeSpaces (cs : List Char) : List Char := cs.filter (· ≠ ' ')

/-- `strings.Split cs "+"`: split at every occurrence of `'+'`. -/
def splitPlus : List Char → List (List Char)
  | [] => [[]]
  | c :: rest =>
    let r := splitPlus rest
    if c = '+' then [] :: r
    else
      match r with
      | [] => [[c]]
      | h :: t => (c :: h) :: t

/-- `strings.TrimSuffix cs "i"`: remove one trailing `'i'` if present. -/
def trimSuffixI (cs : List Char) : List Char :=
  if cs.getLast? = Option.some 'i' then cs.dropLast else cs

/-- `parseComplex` (the custom `a+bi` parser). -/
def parseComplexGo (s : String) : Except CplxErr (ℚ × ℚ) :=
  let cs := removeSpaces s.toList
  if cs = [] then .error .empty
  else
    match splitPlus cs with
    | [a, b] =>
      match parseFloatGo a.asString with
      | Option.none => .error .badFloat
      | Option.some re =>
        match parseFloatGo (trimSuffixI b).asString with
        | Option.none => .error .badFloat
        | Option.some im => .ok (re, im)
    | _ => .error .format

/-! ## Duration literals (`time.ParseDuration`)

The integer fragment of Go's duration grammar: an optional sign and one
or more `<digits><unit>` components with units `ns`, `us`/`µs`, `ms`,
`s`, `m`, `h`; the literal `"0"` needs no unit.  Fractional components
and the int64 overflow edge cases of the stdlib parser are not
modelled. -/

def takeUnit : List Char → Option (Nat × List Char)
  | 'n' :: 's' :: r => Option.some (1, r)
  | 'u' :: 's' :: r => Option.some (1000, r)
  | 'µ' :: 's' :: r => Option.some (1000, r)
  | 'm' :: 's' :: r => Option.some (1000000, r)
  | 'm' :: r => Option.some (60000000000, r)
  | 's' :: r => Option.some (1000000000, r)
  | 'h' :: r => Option.some (3600000000000, r)
  | _ => Option.none

/-- The component loop, fueled by the input length. -/
def durLoop : Nat → List Char → Option Nat
  | 0, _ => Option.none
  | fuel + 1, cs =>
    let ds := cs.takeWhile (·.isDigit)
    if ds = [] then Option.none
    else
      match takeUnit (cs.dropWhile (·.isDigit)) with
      | Option.none => Option.none
      | Option.some (scale, r) =>
        let v := natOfDigits ds * scale
        if r = [] then Option.some v
        else
          match durLoop fuel r with
          | Option.none => Option.none
          | Option.some v' => Option.some (v + v')

def parseDurationGo (s : String) : Option Int :=
  let signed : Bool × List Char :=
    match s.toList with
    | '+' :: cs => (false, cs)
    | '-' :: cs => (true, cs)
    | cs => (false, cs)
  if signed.2 = ['0'] then Option.some 0
  else
    match durLoop (signed.2.length + 1) signed.2 with
    | Option.none => Option.none
    | Option.some n =>
      if n < 2 ^ 63 then Option.some (if signed.1 then -(n : Int) else (n : Int))
      else Option.none

/-! ## Base-0 unsigned parsing (`strconv.ParseUint(s, 0, 64)`)

Used by the `Uintptr` branch: auto-detected base via the `0x`/`0o`/`0b`
prefixes or a leading `0` for octal.  Digit-separating underscores are
not modelled. -/

def digitVal (c : Char) : Nat :=
  if '0' ≤ c ∧ c ≤ '9' then c.toNat - 48
  else if 'a' ≤ c ∧ c ≤ 'f' then c.toNat - 87
  else if 'A' ≤ c ∧ c ≤ 'F' then c.toNat - 55
  else 99

def parseDigitsBase (b : Nat) (cs : List Char) : Option Nat :=
  if cs = [] then Option.none
  else if cs.all (fun c => digitVal c < b) then
    Option.some (cs.foldl (fun a c => a * b + digitVal c) 0)
  else Option.none

def parseUintBase0 (s : String) : Option Nat :=
  let core : Option Nat :=
    match s.toList with
    | '0' :: 'x' :: r => parseDigitsBase 16 r
    | '0' :: 'X' :: r => parseDigitsBase 16 r
    | '0' :: 'o' :: r => parseDigitsBase 8 r
    | '0' :: 'O' :: r => parseDigitsBase 8 r
    | '0' :: 'b' :: r => parseDigitsBase 2 r
    | '0' :: 'B' :: r => parseDigitsBase 2 r
    | '0' :: r => if r = [] then Option.some 0 else parseDigitsBase 8 r
    | r => parseDigitsBase 10 r
  match core with
  | Option.none => Option.none
  | Option.some n => if n < 2 ^ 64 then Option.some n else Option.none

/-! ## Timestamp layout presets (defaults.go lines 634-671)

The concrete Go `time` package layout constants, and the preset switch of
`parseDefaultValue`, written as a first-match lookup over the switch's
case labels exactly as they appear in the source.  Note the two labels
`"RFC1123Z"` and `"rfc3339Nano"` that are not lower case, although the
scrutinee always is.  `strings.ToLower` is modelled for ASCII. -/

def timeLayoutGo : String := "01/02 03:04:05PM " ++ String.mk ['\''] ++ "06 -0700"
def timeANSIC : String := "Mon Jan _2 15:04:05 2006"
def timeUnixDate : String := "Mon Jan _2 15:04:05 MST 2006"
def timeRubyDate : String := "Mon Jan 02 15:04:05 -0700 2006"
def timeRFC822 : String := "02 Jan 06 15:04 MST"
def timeRFC850 : String := "Monday, 02-Jan-06 15:04:05 MST"
def timeRFC1123 : String := "Mon, 02 Jan 2006 15:04:05 MST"
def timeRFC1123Z : String := "Mon, 02 Jan 2006 15:04:05 -0700"
def timeRFC3339 : String := "2006-01-02T15:04:05Z07:00"
def timeRFC3339Nano : String := "2006-01-02T15:04:05.999999999Z07:00"
def timeKitchen : String := "3:04PM"
def timeStamp : String := "Jan _2 15:04:05"
def timeStampMilli : String := "Jan _2 15:04:05.000"
def timeStampMicro : String := "Jan _2 15:04:05.000000"
def timeStampNano : String := "Jan _2 15:04:05.000000000"
def timeDateTime : String := "2006-01-02 15:04:05"
def timeDateOnly : String := "2006-01-02"
def timeTimeOnly : String := "15:04:05"

def asciiLowerChar (c : Char) : Char :=
  if 'A' ≤ c ∧ c ≤ 'Z' then Char.ofNat (c.toNat + 32) else c

/-- `strings.ToLower`, for ASCII input. -/
def asciiLower (s : String) : String := (s.toList.map asciiLowerChar).asString

/-- The case labels of the layout switch, in source order, with the
layout constant each assigns. -/
def presetTable : List (String × String) :=
  [("layout", timeLayoutGo), ("ansic", timeANSIC), ("unixdate", timeUnixDate),
   ("rubydate", timeRubyDate), ("rfc822", timeRFC822), ("rfc850", timeRFC850),
   ("rfc1123", timeRFC1123), ("RFC1123Z", timeRFC1123Z),
   ("rfc3339", timeRFC3339), ("", timeRFC3339),
   ("rfc3339Nano", timeRFC3339Nano), ("kitchen", timeKitchen),
   ("stamp", timeStamp), ("stampmilli", timeStampMilli),
   ("stampmicro", timeStampMicro), ("stampnano", timeStampNano),
   ("datetime", timeDateTime), ("dateonly", timeDateOnly),
   ("timeonly", timeTimeOnly)]

/-- The layout resolution performed by the timestamp branch: switch
`strings.ToLower(layoutTag)` over the case labels; when no label matches,
`layoutTag` is left unchanged and used verbatim as the layout. -/
def resolveLayout (layoutTag : String) : String :=
  match presetTable.lookup (asciiLower layoutTag) with
  | Option.some l => l
  | Option.none => layoutTag

/-! ## The default-descriptor parser (`parseDefaultValue`,
defaults.go lines 545-685)

Returns the reflect type of the produced value along with the value:
the walker's write (`setUnexportedField`, i.e. `reflect.Value.Set`)
panics when that type differs from the field's declared type.  The
stdlib `time.Parse` is modelled as the abstract injective constructor
`TimeRep.parsed layout text` (its possible failure is not modelled);
`time.Now()` as `TimeRep.now n` for the tick parameter `n`.  The float32
rounding of the `Complex64` conversion is not modelled. -/

inductive PErr where
  | badSyntax            -- errSyntax
  | unsupportedFieldType -- fmt.Errorf("unsupported field type: ...")
  deriving DecidableEq, Repr

def parseDefaultValue (dTag lTag : String) (t : Ty) (now : Nat) :
    Except PErr (Ty × GoVal) :=
  match t with
  | .ptr elemTy =>
    match parseDefaultValue dTag lTag elemTy now with
    | .error e => .error e
    | .ok (_, v) => .ok (.ptr elemTy, .vptr elemTy (.some v))
  | .str => .ok (.str, .vstr dTag)
  | .duration =>
    match parseDurationGo dTag with
    | Option.none => .error .badSyntax
    | Option.some n => .ok (.duration, .vdur n)
  | .int bits =>
    match parseIntGo dTag bits with
    | Option.none => .error .badSyntax
    | Option.some n => .ok (.int bits, .vint bits n)
  | .uint bits =>
    match parseUintGo dTag bits with
    | Option.none => .error .badSyntax
    | Option.some n => .ok (.uint bits, .vuint bits n)
  | .float bits =>
    match parseFloatGo dTag with
    | Option.none => .error .badSyntax
    | Option.some q => .ok (.float bits, .vfloat bits q)
  | .cplx bits =>
    match parseComplexGo dTag with
    | .error _ => .error .badSyntax
    | .ok (re, im) => .ok (.cplx bits, .vcplx bits re im)
  | .bool =>
    match parseBoolGo dTag with
    | Option.none => .error .badSyntax
    | Option.some b => .ok (.bool, .vbool b)
  | .uptr =>
    -- the Uintptr branch returns reflect.ValueOf(uint64Value) without a
    -- Convert, so the produced value has type uint64, not uintptr
    match parseUintBase0 dTag with
    | Option.none => .error .badSyntax
    | Option.some n => .ok (.uint 64, .vuint 64 n)
  | .time =>
    if asciiLower dTag = "now" then .ok (.time, .vtime (.now now))
    else .ok (.time, .vtime (.parsed (resolveLayout lTag) dTag))
  | .struct => .error .unsupportedFieldType
  | .slice _ => .error .unsupportedFieldType
  | .map _ _ => .error .unsupportedFieldType

theorem splitPlus_eq_single {cs : List Char} (h : cs.contains '+' = false) :
    splitPlus cs = [cs] := by
  induction cs with
  | nil => rfl
  | cons c rest ih =>
    rw [List.contains_cons, Bool.or_eq_false_iff] at h
    have hc : c ≠ '+' := by
      intro he; rw [he] at h; simp at h
    rw [splitPlus, ih h.2]
    simp [hc]

theorem removeSpaces_no_plus {cs : List Char} (h : cs.contains '+' = false) :
    (removeSpaces cs).contains '+' = false := by
  have hmem : ('+' : Char) ∉ cs := by simpa using h
  have h2 : ('+' : Char) ∉ removeSpaces cs :=
    fun hx => hmem (List.mem_of_mem_filter hx)
  simpa using h2

/-- C6 counterexample: the descriptor `"3.5+2.7"` deviates from the
claimed grammar — its second part does not end in `'i'` — yet the parser
accepts it, because `strings.TrimSuffix` strips an optional `"i"` rather
than requiring one.  Under the claim it would have to fail with the
invalid-syntax error. -/
theorem c6_counterexample_missing_i :
    parseDefaultValue "3.5+2.7" "" (.cplx 128) 0
      = .ok (.cplx 128, .vcplx 128 (7/2) (27/10)) := rfl

/-- C6 (amended): the complex parser removes spaces, splits the
descriptor on every `'+'` and requires exactly two parts (so exactly one
`'+'`, not a split at the first one), strips an optional trailing `'i'`
from the second part, and float-parses both parts; a descriptor without
any `'+'` fails with the invalid-syntax error, as do a part that is not
a float and a descriptor with more than one `'+'`; `"3.5+2.7i"` yields
the complex value with real part 3.5 and imaginary part 2.7. -/
theorem c6_complex_grammar :
    parseDefaultValue "3.5+2.7i" "" (.cplx 128) 0
      = .ok (.cplx 128, .vcplx 128 (7/2) (27/10)) ∧
    parseDefaultValue "3.5 + 2.7i" "" (.cplx 128) 0
      = .ok (.cplx 128, .vcplx 128 (7/2) (27/10)) ∧
    parseDefaultValue "1+2+3i" "" (.cplx 128) 0 = .error .badSyntax ∧
    parseDefaultValue "a+bi" "" (.cplx 128) 0 = .error .badSyntax ∧
    (∀ s : String, s.toList.contains '+' = false →
      parseDefaultValue s "" (.cplx 128) 0 = .error .badSyntax) := by
  refine ⟨rfl, rfl, rfl, rfl, ?_⟩
  intro s h
  have h2 := removeSpaces_no_plus h
  rw [String.toList] at h2
  by_cases hemp : removeSpaces s.data = []
  · simp [parseDefaultValue, parseComplexGo, hemp]
  · simp [parseDefaultValue, parseComplexGo, hemp, splitPlus_eq_single h2]

/-- C6 witness: the no-plus clause of `c6_complex_grammar` at the
descriptor `"35i"`. -/
theorem c6_complex_grammar_witness :
    parseDefaultValue "35i" "" (.cplx 128) 0 = .error .badSyntax :=
  c6_complex_grammar.2.2.2.2 "35i" rfl

/-- C7 counterexample: the layout preset `RFC1123Z`, written exactly as
its own case label, does not resolve to the RFC 1123 numeric-zone layout
(the switch compares the lowercased tag against the non-lowercase label,
which can never match), and an unrecognized preset name resolves to
itself — it is used verbatim as a custom layout — not to the standard
RFC 3339 format. -/
theorem c7_counterexample_presets :
    resolveLayout "RFC1123Z" = "RFC1123Z" ∧
    resolveLayout "RFC1123Z" ≠ timeRFC1123Z ∧
    resolveLayout "myLayout" = "myLayout" ∧
    resolveLayout "myLayout" ≠ timeRFC3339 := by
  exact ⟨rfl, by decide, rfl, by decide⟩

/-- C7 (amended): preset names are matched by lowercasing the layout tag
against the switch labels, so the sixteen presets whose labels are
written in lower case resolve in any letter case; the `RFC1123Z` and
`RFC3339Nano` labels are not lower case and therefore never match, so
those two presets never resolve (the tag is then used verbatim as a
custom layout); an empty layout tag resolves to the RFC 3339 layout; and
any tag matching no label is used verbatim as the layout. -/
theorem c7_timestamp_presets :
    (∀ s, asciiLower s = "layout" → resolveLayout s = timeLayoutGo) ∧
    (∀ s, asciiLower s = "ansic" → resolveLayout s = timeANSIC) ∧
    (∀ s, asciiLower s = "unixdate" → resolveLayout s = timeUnixDate) ∧
    (∀ s, asciiLower s = "rubydate" → resolveLayout s = timeRubyDate) ∧
    (∀ s, asciiLower s = "rfc822" → resolveLayout s = timeRFC822) ∧
    (∀ s, asciiLower s = "rfc850" → resolveLayout s = timeRFC850) ∧
    (∀ s, asciiLower s = "rfc1123" → resolveLayout s = timeRFC1123) ∧
    (∀ s, asciiLower s = "rfc1123z" → resolveLayout s = s) ∧
    (∀ s, asciiLower s = "rfc3339" → resolveLayout s = timeRFC3339) ∧
    resolveLayout "" = timeRFC3339 ∧
    (∀ s, asciiLower s = "rfc3339nano" → resolveLayout s = s) ∧
    (∀ s, asciiLower s = "kitchen" → resolveLayout s = timeKitchen) ∧
    (∀ s, asciiLower s = "stamp" → resolveLayout s = timeStamp) ∧
    (∀ s, asciiLower s = "stampmilli" → resolveLayout s = timeStampMilli) ∧
    (∀ s, asciiLower s = "stampmicro" → resolveLayout s = timeStampMicro) ∧
    (∀ s, asciiLower s = "stampnano" → resolveLayout s = timeStampNano) ∧
    (∀ s, asciiLower s = "datetime" → resolveLayout s = timeDateTime) ∧
    (∀ s, asciiLower s = "dateonly" → resolveLayout s = timeDateOnly) ∧
    (∀ s, asciiLower s = "timeonly" → resolveLayout s = timeTimeOnly) ∧
    (∀ s, presetTable.lookup (asciiLower s) = Option.none →
      resolveLayout s = s) := by
  refine ⟨?_, ?_, ?_, ?_, ?_, ?_, ?_, ?_, ?_, ?_, ?_, ?_, ?_, ?_, ?_, ?_,
    ?_, ?_, ?_, ?_⟩
  all_goals first
  | rfl
  | (intro s h; simp only [resolveLayout, h]; try rfl)

/-- C7 witness: `c7_timestamp_presets` applied at mixed-case preset
names and at a custom layout string. -/
theorem c7_timestamp_presets_witness :
    resolveLayout "ANSIc" = timeANSIC ∧
    resolveLayout "RfC1123" = timeRFC1123 ∧
    resolveLayout "rfc3339NANO" = "rfc3339NANO" ∧
    resolveLayout "02 Jan 06" = "02 Jan 06" :=
  ⟨c7_timestamp_presets.2.1 "ANSIc" rfl,
   (c7_timestamp_presets.2.2.2.2.2.2.1 : _) "RfC1123" rfl,
   c7_timestamp_presets.2.2.2.2.2.2.2.2.2.2.1 "rfc3339NANO" rfl,
   c7_timestamp_presets.2.2.2.2.2.2.2.2.2.2.2.2.2.2.2.2.2.2.2 "02 Jan 06" rfl⟩

/-! ## The defaulting walker (`SetDefaults`, defaults.go lines 321-542)

Outcomes distinguish Go error returns from Go panics: a reflect
`Value.Set` with a value of the wrong type panics (`setTypeMismatch`),
and `getPtrInterface` on a nil pointer field panics (`nilDeref`, from
`reflect.Value.Type` on the zero `Value` produced by `Elem()`).

In `setDefaultsStruct`'s field loop only the scalar/timestamp parse
failures return immediately; an error from recursing into a composite
field is *assigned* to the named return value and the loop continues, so
a later successful recursion overwrites (loses) it — the model mirrors
this with the `acc` accumulator.  `setDefaultsSlice` and
`setDefaultsMap` check the error after every element and stop.  Panics
abort everything immediately.

The reflective descent into a `time.Time` value reached as an untagged
struct-kind field (and into `time.Location`) is not modelled: it is
treated as leaving the value unchanged, since none of the stdlib fields
carry a `default` tag. -/

inductive PanicKind where
  | setTypeMismatch   -- reflect.Value.Set: wrong value type
  | nilDeref          -- getPtrInterface: reflect.Value.Type on zero Value
  deriving DecidableEq, Repr

inductive DefErr where
  | parseField (field : String) (e : PErr)
    -- fmt.Errorf("failed to parse default tag for field %s: %s", ...)
  deriving DecidableEq, Repr

inductive FillOut where
  | ok
  | err (e : DefErr)
  | panicked (p : PanicKind)
  deriving DecidableEq, Repr

/-- Strip pointer layers from a type (the `for Kind() == Ptr` loops). -/
def stripTy : Ty → Ty
  | .ptr t => stripTy t
  | t => t

/-- How one iteration of the struct field loop ends. -/
inductive StepRes where
  | stop (o : FillOut)    -- immediate return or panic
  | setAcc (o : FillOut)  -- err = setDefaultsX(...), loop continues
  | keepAcc               -- named return value untouched, loop continues
  deriving DecidableEq, Repr

/-- `setUnexportedField field value` = `reflect.NewAt(...).Elem().Set(value)`:
succeeds iff the value's reflect type is the field's declared type,
panics otherwise. -/
def setUnexportedField (declTy : Ty) (ty : Ty) (v : GoVal) : Option GoVal :=
  if ty = declTy then Option.some v else Option.none

mutual
/-- `setDefaultsStruct` applied to a pointer to `v` (defaults.go lines
352-423): strip value-level pointers (nil is a silent no-op), walk the
fields of a struct, no-op on any other kind. -/
def setDefStruct (now : Nat) : GoVal → GoVal × FillOut
  | .vptr t .none => (.vptr t .none, .ok)
  | .vptr t (.some w) =>
    match setDefStruct now w with
    | (w', o) => (.vptr t (.some w'), o)
  | .vstruct fs =>
    match fillFields now .ok fs with
    | (fs', o) => (.vstruct fs', o)
  | v => (v, .ok)

/-- The body of one iteration of `setDefaultsStruct`'s field loop.
`stop` is an immediate `return` (wrapped parse error) or a panic;
`setAcc` is the `err = setDefaultsX(...)` assignment to the named return
value after a composite-field recursion (the loop continues even on an
error, and a later assignment overwrites it); `keepAcc` Leaves the named
return value untouched (scalar set done, or nothing to do). -/
def fieldStep (now : Nat) : FieldV → FieldV × StepRes
  | .mk n d l t v =>
    match stripTy t with
    | .struct | .time =>
      if t = .time ∧ d ≠ "" then
        match parseDefaultValue d l (stripTy t) now with
        | .error e => (.mk n d l t v, .stop (.err (.parseField n e)))
        | .ok (ty, v') =>
          match setUnexportedField t ty v' with
          | Option.none => (.mk n d l t v, .stop (.panicked .setTypeMismatch))
          | Option.some v'' => (.mk n d l t v'', .keepAcc)
      else
        match structRecurse now v with
        | (v', .panicked p) => (.mk n d l t v', .stop (.panicked p))
        | (v', o) => (.mk n d l t v', .setAcc o)
    | .slice _ =>
      match sliceRecurse now v with
      | (v', .panicked p) => (.mk n d l t v', .stop (.panicked p))
      | (v', o) => (.mk n d l t v', .setAcc o)
    | .map _ _ =>
      match mapRecurse now v with
      | (v', .panicked p) => (.mk n d l t v', .stop (.panicked p))
      | (v', o) => (.mk n d l t v', .setAcc o)
    | _ =>
      if d ≠ "" then
        match parseDefaultValue d l (stripTy t) now with
        | .error e => (.mk n d l t v, .stop (.err (.parseField n e)))
        | .ok (ty, v') =>
          match setUnexportedField t ty v' with
          | Option.none => (.mk n d l t v, .stop (.panicked .setTypeMismatch))
          | Option.some v'' => (.mk n d l t v'', .keepAcc)
      else (.mk n d l t v, .keepAcc)

/-- The field loop of `setDefaultsStruct`, threading the named return
value `err` (`acc`, initially `ok`). -/
def fillFields (now : Nat) (acc : FillOut) : Fields → Fields × FillOut
  | .nil => (.nil, acc)
  | .cons f rest =>
    match fieldStep now f with
    | (f', .stop o) => (.cons f' rest, o)
    | (f', .setAcc o) =>
      match fillFields now o rest with
      | (rest', o') => (.cons f' rest', o')
    | (f', .keepAcc) =>
      match fillFields now acc rest with
      | (rest', o') => (.cons f' rest', o')

/-- `setDefaultsStruct(getPtrInterface(v))`: `getPtrInterface` panics on
a nil pointer (its `Elem()` is the zero `Value`); through a non-nil
pointer the recursion mutates the pointee in place.  The non-pointer
case is `setDefaultsStruct` itself, unfolded once. -/
def structRecurse (now : Nat) : GoVal → GoVal × FillOut
  | .vptr t .none => (.vptr t .none, .panicked .nilDeref)
  | .vptr t (.some w) =>
    match setDefStruct now w with
    | (w', o) => (.vptr t (.some w'), o)
  | .vstruct fs =>
    match fillFields now .ok fs with
    | (fs', o) => (.vstruct fs', o)
  | v => (v, .ok)

/-- `setDefaultsSlice` applied to a pointer to `v` (defaults.go lines
426-483). -/
def setDefSlice (now : Nat) : GoVal → GoVal × FillOut
  | .vptr t .none => (.vptr t .none, .ok)
  | .vptr t (.some w) =>
    match setDefSlice now w with
    | (w', o) => (.vptr t (.some w'), o)
  | .vslice ety r xs =>
    match fillElems now ety xs with
    | (xs', o) => (.vslice ety r xs', o)
  | v => (v, .ok)

/-- `setDefaultsSlice(getPtrInterface(v))`. -/
def sliceRecurse (now : Nat) : GoVal → GoVal × FillOut
  | .vptr t .none => (.vptr t .none, .panicked .nilDeref)
  | .vptr t (.some w) =>
    match setDefSlice now w with
    | (w', o) => (.vptr t (.some w'), o)
  | .vslice ety r xs =>
    match fillElems now ety xs with
    | (xs', o) => (.vslice ety r xs', o)
  | v => (v, .ok)

/-- The element loop of `setDefaultsSlice`: dispatch on the stripped
element type, mutate in place, stop at the first error. -/
def fillElems (now : Nat) (ety : Ty) : Elems → Elems × FillOut
  | .nil => (.nil, .ok)
  | .cons x rest =>
    match
      (match stripTy ety with
       | .struct => structRecurse now x
       | .time => structRecurse now x
       | .slice _ => sliceRecurse now x
       | .map _ _ => mapRecurse now x
       | _ => (x, .ok)) with
    | (x', .ok) =>
      match fillElems now ety rest with
      | (rest', o) => (.cons x' rest', o)
    | (x', o) => (.cons x' rest, o)

/-- `setDefaultsMap` applied to a pointer to `v` (defaults.go lines
486-542). -/
def setDefMap (now : Nat) : GoVal → GoVal × FillOut
  | .vptr t .none => (.vptr t .none, .ok)
  | .vptr t (.some w) =>
    match setDefMap now w with
    | (w', o) => (.vptr t (.some w'), o)
  | .vmap kt vt es =>
    match fillEntries now vt es with
    | (es', o) => (.vmap kt vt es', o)
  | v => (v, .ok)

/-- `setDefaultsMap(getPtrInterface(v))`. -/
def mapRecurse (now : Nat) : GoVal → GoVal × FillOut
  | .vptr t .none => (.vptr t .none, .panicked .nilDeref)
  | .vptr t (.some w) =>
    match setDefMap now w with
    | (w', o) => (.vptr t (.some w'), o)
  | .vmap kt vt es =>
    match fillEntries now vt es with
    | (es', o) => (.vmap kt vt es', o)
  | v => (v, .ok)

/-- The key loop of `setDefaultsMap`: copy the value out, recurse on the
copy, and write it back under the same key only on success — except that
when the value is a pointer the recursion already mutated the shared
pointee, so the change persists even on error.  Sharing of backing
arrays nested inside non-pointer copies is not modelled. -/
def fillEntries (now : Nat) (vt : Ty) : Entries → Entries × FillOut
  | .nil => (.nil, .ok)
  | .cons k x rest =>
    match
      (match stripTy vt with
       | .struct => structRecurse now x
       | .time => structRecurse now x
       | .slice _ => sliceRecurse now x
       | .map _ _ => mapRecurse now x
       | _ => (x, .ok)) with
    | (x', .ok) =>
      match fillEntries now vt rest with
      | (rest', o) => (.cons k x' rest', o)
    | (x', o) =>
      match x with
      | .vptr _ _ => (.cons k x' rest, o)
      | _ => (.cons k x rest, o)
end

/-- The reflect kind/type of a value, as `SetDefaults` sees the target
of the passed pointer. -/
def valKind : GoVal → Ty
  | .vstr _ => .str
  | .vbool _ => .bool
  | .vint bits _ => .int bits
  | .vuint bits _ => .uint bits
  | .vfloat bits _ => .float bits
  | .vcplx bits _ _ => .cplx bits
  | .vdur _ => .duration
  | .vtime _ => .time
  | .vuptr _ => .uptr
  | .vptr t _ => .ptr t
  | .vstruct _ => .struct
  | .vslice t _ _ => .slice t
  | .vmap k v _ => .map k v

/-- `SetDefaults(&root)` (defaults.go lines 321-349): strip pointer
layers from the pointer's type and dispatch on the kind of the target;
any other kind is a silent no-op. -/
def runSetDefaults (now : Nat) (root : GoVal) : GoVal × FillOut :=
  match stripTy (valKind root) with
  | .struct => setDefStruct now root
  | .time => setDefStruct now root
  | .slice _ => setDefSlice now root
  | .map _ _ => setDefMap now root
  | _ => (root, .ok)

/-! ## Graph skeletons and well-typedness

`skelOf` erases every scalar payload but keeps all structure: pointer
set/unset-ness, struct field names/tags/declared types, slice element
types, backing-array refs and lengths, and map key/value types together
with the exact keys.  Preserving the skeleton is exactly "no map gains
or loses a key, no sequence changes its length, no field appears or
disappears; only scalar contents change".

`wfVal` is well-typedness of a graph: every stored value matches its
declared type, as is automatic for a real Go object graph. -/

mutual
inductive Skel where
  | leaf
  | sptr (t : Ty) (o : OptSkel)
  | sstruct (fs : SkelFields)
  | sslice (t : Ty) (r : Nat) (xs : SkelElems)
  | smap (k v : Ty) (es : SkelEntries)

inductive OptSkel where
  | none
  | some (s : Skel)

inductive SkelFields where
  | nil
  | cons (name dTag lTag : String) (t : Ty) (s : Skel) (rest : SkelFields)

inductive SkelElems where
  | nil
  | cons (s : Skel) (rest : SkelElems)

inductive SkelEntries where
  | nil
  | cons (k : GoVal) (s : Skel) (rest : SkelEntries)
end

mutual
def skelOf : GoVal → Skel
  | .vptr t o => .sptr t (skelOpt o)
  | .vstruct fs => .sstruct (skelFields fs)
  | .vslice t r xs => .sslice t r (skelElems xs)
  | .vmap k v es => .smap k v (skelEntries es)
  | _ => .leaf

def skelOpt : OptVal → OptSkel
  | .none => .none
  | .some v => .some (skelOf v)

def skelFields : Fields → SkelFields
  | .nil => .nil
  | .cons (.mk n d l t v) rest => .cons n d l t (skelOf v) (skelFields rest)

def skelElems : Elems → SkelElems
  | .nil => .nil
  | .cons v rest => .cons (skelOf v) (skelElems rest)

def skelEntries : Entries → SkelEntries
  | .nil => .nil
  | .cons k v rest => .cons k (skelOf v) (skelEntries rest)
end

/-- One-level agreement between a reflect type and a value. -/
def tyMatches : Ty → GoVal → Bool
  | .str, .vstr _ => true
  | .bool, .vbool _ => true
  | .int b, .vint b' _ => b = b'
  | .uint b, .vuint b' _ => b = b'
  | .float b, .vfloat b' _ => b = b'
  | .cplx b, .vcplx b' _ _ => b = b'
  | .duration, .vdur _ => true
  | .time, .vtime _ => true
  | .uptr, .vuptr _ => true
  | .ptr t, .vptr t' _ => t = t'
  | .slice t, .vslice t' _ _ => t = t'
  | .map k v, .vmap k' v' _ => k = k' && v = v'
  | .struct, .vstruct _ => true
  | _, _ => false

mutual
def wfVal : GoVal → Bool
  | .vptr t o => wfOpt t o
  | .vstruct fs => wfFields fs
  | .vslice t _ xs => wfElems t xs
  | .vmap k v es => wfEntries k v es
  | _ => true

def wfOpt (t : Ty) : OptVal → Bool
  | .none => true
  | .some v => tyMatches t v && wfVal v

def wfFields : Fields → Bool
  | .nil => true
  | .cons (.mk _ _ _ t v) rest => tyMatches t v && wfVal v && wfFields rest

def wfElems (t : Ty) : Elems → Bool
  | .nil => true
  | .cons x rest => tyMatches t x && wfVal x && wfElems t rest

def wfEntries (k v : Ty) : Entries → Bool
  | .nil => true
  | .cons key x rest =>
    tyMatches k key && wfVal key && tyMatches v x && wfVal x && wfEntries k v rest
end

/-- The leaf (scalar or timestamp) types. -/
def leafTy : Ty → Bool
  | .str | .bool | .int _ | .uint _ | .float _ | .cplx _ | .duration
  | .uptr | .time => true
  | _ => false

theorem tyMatches_leaf {t : Ty} {v : GoVal} (ht : leafTy t = true)
    (h : tyMatches t v = true) : skelOf v = .leaf := by
  cases t <;> cases v <;> simp_all [tyMatches, leafTy, skelOf]

theorem parse_leaf_skel {d l : String} {t : Ty} {nw : Nat} {ty : Ty} {v' : GoVal}
    (ht : leafTy t = true)
    (h : parseDefaultValue d l t nw = .ok (ty, v')) :
    skelOf v' = .leaf ∧ leafTy ty = true := by
  cases t <;> first
  | (exfalso; revert ht; simp [leafTy]; done)
  | (simp only [parseDefaultValue] at h
     repeat' split at h
     all_goals first
     | exact Except.noConfusion h
     | (cases h; exact ⟨rfl, rfl⟩))

theorem stripTy_ne_ptr (t t0 : Ty) : stripTy t ≠ .ptr t0 := by
  induction t <;> simp [stripTy] <;> assumption

set_option maxHeartbeats 2000000 in
mutual
theorem skel_setDefStruct (nw : Nat) :
    ∀ v : GoVal, wfVal v = true → skelOf (setDefStruct nw v).1 = skelOf v
  | .vptr _ .none, _ => rfl
  | .vptr t (.some w), h => by
    have hw : wfVal w = true := by
      simp only [wfVal, wfOpt, Bool.and_eq_true] at h; exact h.2
    cases hrec : setDefStruct nw w with
    | mk w' o =>
      have ih : skelOf w' = skelOf w := by
        simpa [hrec] using skel_setDefStruct nw w hw
      simp [setDefStruct, hrec, skelOf, skelOpt, ih]
  | .vstruct fs, h => by
    cases hrec : fillFields nw .ok fs with
    | mk fs' o =>
      have ih : skelFields fs' = skelFields fs := by
        simpa [hrec] using skel_fillFields nw .ok fs (by simpa [wfVal] using h)
      simp [setDefStruct, hrec, skelOf, ih]
  | .vstr _, _ => rfl
  | .vbool _, _ => rfl
  | .vint _ _, _ => rfl
  | .vuint _ _, _ => rfl
  | .vfloat _ _, _ => rfl
  | .vcplx _ _ _, _ => rfl
  | .vdur _, _ => rfl
  | .vtime _, _ => rfl
  | .vuptr _, _ => rfl
  | .vslice _ _ _, _ => rfl
  | .vmap _ _ _, _ => rfl

  termination_by v h => (sizeOf v, 0)
  decreasing_by all_goals (simp_wf; omega)
theorem skel_structRecurse (nw : Nat) :
    ∀ v : GoVal, wfVal v = true → skelOf (structRecurse nw v).1 = skelOf v
  | .vptr _ .none, _ => rfl
  | .vptr t (.some w), h => by
    have hw : wfVal w = true := by
      simp only [wfVal, wfOpt, Bool.and_eq_true] at h; exact h.2
    cases hrec : setDefStruct nw w with
    | mk w' o =>
      have ih : skelOf w' = skelOf w := by
        simpa [hrec] using skel_setDefStruct nw w hw
      simp [structRecurse, hrec, skelOf, skelOpt, ih]
  | .vstruct fs, h => by
    cases hrec : fillFields nw .ok fs with
    | mk fs' o =>
      have ih : skelFields fs' = skelFields fs := by
        simpa [hrec] using skel_fillFields nw .ok fs (by simpa [wfVal] using h)
      simp [structRecurse, hrec, skelOf, ih]
  | .vstr _, _ => rfl
  | .vbool _, _ => rfl
  | .vint _ _, _ => rfl
  | .vuint _ _, _ => rfl
  | .vfloat _ _, _ => rfl
  | .vcplx _ _ _, _ => rfl
  | .vdur _, _ => rfl
  | .vtime _, _ => rfl
  | .vuptr _, _ => rfl
  | .vslice _ _ _, _ => rfl
  | .vmap _ _ _, _ => rfl

  termination_by v h => (sizeOf v, 0)
  decreasing_by all_goals (simp_wf; omega)
theorem skel_fieldStep (nw : Nat) :
    ∀ (n d l : String) (t : Ty) (v : GoVal), tyMatches t v = true →
      wfVal v = true →
      ∃ v'', (fieldStep nw (.mk n d l t v)).1 = .mk n d l t v'' ∧
        skelOf v'' = skelOf v
  | n, d, l, t, v, hm, hw => by
    rcases hst : stripTy t with _ | _ | bits | bits | bits | bits | _ | _ | _
      | t0 | ety | ⟨kt, vt⟩ | _
    case ptr => exact absurd hst (stripTy_ne_ptr t t0)
    case struct =>
      by_cases hcond : t = .time ∧ d ≠ ""
      · rw [hcond.1] at hst; exact absurd hst (by simp [stripTy])
      · cases hrec : structRecurse nw v with
        | mk v' o =>
          have ih : skelOf v' = skelOf v := by
            simpa [hrec] using skel_structRecurse nw v hw
          refine ⟨v', ?_, ih⟩
          cases o <;> simp [fieldStep, stripTy, hst, hcond, hrec]
    case time =>
      by_cases hcond : t = .time ∧ d ≠ ""
      · obtain ⟨ht2, hd⟩ := hcond
        subst ht2
        rcases hp : parseDefaultValue d l Ty.time nw with e | tyv'
        · exact ⟨v, by simp [fieldStep, stripTy, hd, hp], rfl⟩
        · cases tyv' with
          | mk ty v' =>
            rcases hset : setUnexportedField Ty.time ty v' with _ | v''
            · exact ⟨v, by simp [fieldStep, stripTy, hd, hp, hset], rfl⟩
            · have hty : ty = Ty.time ∧ v'' = v' := by
                simp only [setUnexportedField] at hset
                split at hset
                · exact ⟨by assumption, by cases hset; rfl⟩
                · exact Option.noConfusion hset
              have hleaf : skelOf v' = .leaf ∧ leafTy ty = true :=
                parse_leaf_skel (by rfl) hp
              have hvleaf : skelOf v = .leaf :=
                tyMatches_leaf (by rfl) hm
              refine ⟨v'', by simp [fieldStep, stripTy, hd, hp, hset], ?_⟩
              rw [hty.2, hleaf.1, hvleaf]
      · cases hrec : structRecurse nw v with
        | mk v' o =>
          have ih : skelOf v' = skelOf v := by
            simpa [hrec] using skel_structRecurse nw v hw
          refine ⟨v', ?_, ih⟩
          cases o <;> simp [fieldStep, stripTy, hst, hcond, hrec]
    case slice =>
      cases hrec : sliceRecurse nw v with
      | mk v' o =>
        have ih : skelOf v' = skelOf v := by
          simpa [hrec] using skel_sliceRecurse nw v hw
        refine ⟨v', ?_, ih⟩
        cases o <;> simp [fieldStep, stripTy, hst, hrec]
    case map =>
      cases hrec : mapRecurse nw v with
      | mk v' o =>
        have ih : skelOf v' = skelOf v := by
          simpa [hrec] using skel_mapRecurse nw v hw
        refine ⟨v', ?_, ih⟩
        cases o <;> simp [fieldStep, stripTy, hst, hrec]
    all_goals (
      by_cases hd : d ≠ ""
      · rcases hp : parseDefaultValue d l (stripTy t) nw with e | tyv'
        · rw [hst] at hp
          exact ⟨v, by simp [fieldStep, stripTy, hst, hd, hp], rfl⟩
        · rw [hst] at hp
          cases tyv' with
          | mk ty v' =>
            rcases hset : setUnexportedField t ty v' with _ | v''
            · exact ⟨v, by simp [fieldStep, stripTy, hst, hd, hp, hset], rfl⟩
            · have hty : ty = t ∧ v'' = v' := by
                simp only [setUnexportedField] at hset
                split at hset
                · exact ⟨by assumption, by cases hset; rfl⟩
                · exact Option.noConfusion hset
              have hleaf : skelOf v' = .leaf ∧ leafTy ty = true :=
                parse_leaf_skel (by rfl) hp
              have hvleaf : skelOf v = .leaf := by
                refine tyMatches_leaf ?_ hm
                rw [← hty.1]; exact hleaf.2
              refine ⟨v'', by simp [fieldStep, stripTy, hst, hd, hp, hset], ?_⟩
              rw [hty.2, hleaf.1, hvleaf]
      · exact ⟨v, by simp [fieldStep, stripTy, hst, hd], rfl⟩)

  termination_by n d l t v hm hw => (sizeOf v, 1)
  decreasing_by all_goals (simp_wf; omega)
theorem skel_fillFields (nw : Nat) (acc : FillOut) :
    ∀ fs : Fields, wfFields fs = true →
      skelFields (fillFields nw acc fs).1 = skelFields fs
  | .nil, _ => rfl
  | .cons (.mk n d l t v) rest, h => by
    have hparts : tyMatches t v = true ∧ wfVal v = true ∧ wfFields rest = true := by
      simpa [wfFields, Bool.and_eq_true, and_assoc] using h
    obtain ⟨v'', hstep, hskel⟩ :=
      skel_fieldStep nw n d l t v hparts.1 hparts.2.1
    cases hfs : fieldStep nw (.mk n d l t v) with
    | mk f' sr =>
      rw [hfs] at hstep
      simp only at hstep
      subst hstep
      cases sr with
      | stop o =>
        simp [fillFields, hfs, skelFields, hskel]
      | setAcc o =>
        cases hrest : fillFields nw o rest with
        | mk rest' o' =>
          have ih : skelFields rest' = skelFields rest := by
            simpa [hrest] using skel_fillFields nw o rest hparts.2.2
          simp [fillFields, hfs, hrest, skelFields, hskel, ih]
      | keepAcc =>
        cases hrest : fillFields nw acc rest with
        | mk rest' o' =>
          have ih : skelFields rest' = skelFields rest := by
            simpa [hrest] using skel_fillFields nw acc rest hparts.2.2
          simp [fillFields, hfs, hrest, skelFields, hskel, ih]

  termination_by fs h => (sizeOf fs, 0)
  decreasing_by all_goals (simp_wf; omega)
theorem skel_setDefSlice (nw : Nat) :
    ∀ v : GoVal, wfVal v = true → skelOf (setDefSlice nw v).1 = skelOf v
  | .vptr _ .none, _ => rfl
  | .vptr t (.some w), h => by
    have hw : wfVal w = true := by
      simp only [wfVal, wfOpt, Bool.and_eq_true] at h; exact h.2
    cases hrec : setDefSlice nw w with
    | mk w' o =>
      have ih : skelOf w' = skelOf w := by
        simpa [hrec] using skel_setDefSlice nw w hw
      simp [setDefSlice, hrec, skelOf, skelOpt, ih]
  | .vslice ety r xs, h => by
    cases hrec : fillElems nw ety xs with
    | mk xs' o =>
      have ih : skelElems xs' = skelElems xs := by
        simpa [hrec] using skel_fillElems nw ety xs (by simpa [wfVal] using h)
      simp [setDefSlice, hrec, skelOf, ih]
  | .vstr _, _ => rfl
  | .vbool _, _ => rfl
  | .vint _ _, _ => rfl
  | .vuint _ _, _ => rfl
  | .vfloat _ _, _ => rfl
  | .vcplx _ _ _, _ => rfl
  | .vdur _, _ => rfl
  | .vtime _, _ => rfl
  | .vuptr _, _ => rfl
  | .vstruct _, _ => rfl
  | .vmap _ _ _, _ => rfl

  termination_by v h => (sizeOf v, 0)
  decreasing_by all_goals (simp_wf; omega)
theorem skel_sliceRecurse (nw : Nat) :
    ∀ v : GoVal, wfVal v = true → skelOf (sliceRecurse nw v).1 = skelOf v
  | .vptr _ .none, _ => rfl
  | .vptr t (.some w), h => by
    have hw : wfVal w = true := by
      simp only [wfVal, wfOpt, Bool.and_eq_true] at h; exact h.2
    cases hrec : setDefSlice nw w with
    | mk w' o =>
      have ih : skelOf w' = skelOf w := by
        simpa [hrec] using skel_setDefSlice nw w hw
      simp [sliceRecurse, hrec, skelOf, skelOpt, ih]
  | .vslice ety r xs, h => by
    cases hrec : fillElems nw ety xs with
    | mk xs' o =>
      have ih : skelElems xs' = skelElems xs := by
        simpa [hrec] using skel_fillElems nw ety xs (by simpa [wfVal] using h)
      simp [sliceRecurse, hrec, skelOf, ih]
  | .vstr _, _ => rfl
  | .vbool _, _ => rfl
  | .vint _ _, _ => rfl
  | .vuint _ _, _ => rfl
  | .vfloat _ _, _ => rfl
  | .vcplx _ _ _, _ => rfl
  | .vdur _, _ => rfl
  | .vtime _, _ => rfl
  | .vuptr _, _ => rfl
  | .vstruct _, _ => rfl
  | .vmap _ _ _, _ => rfl

  termination_by v h => (sizeOf v, 0)
  decreasing_by all_goals (simp_wf; omega)
theorem skel_fillElems (nw : Nat) (ety : Ty) :
    ∀ xs : Elems, wfElems ety xs = true →
      skelElems (fillElems nw ety xs).1 = skelElems xs
  | .nil, _ => rfl
  | .cons x rest, h => by
    have hparts : wfVal x = true ∧ wfElems ety rest = true := by
      simp only [wfElems, Bool.and_eq_true, and_assoc] at h
      exact ⟨h.2.1, h.2.2⟩
    have hdispatch :
        ∀ p : GoVal × FillOut,
          (match stripTy ety with
           | .struct => structRecurse nw x
           | .time => structRecurse nw x
           | .slice _ => sliceRecurse nw x
           | .map _ _ => mapRecurse nw x
           | _ => (x, .ok)) = p →
          skelOf p.1 = skelOf x := by
      intro p hp
      rcases hst : stripTy ety <;> rw [hst] at hp <;> rw [← hp]
      case struct => exact skel_structRecurse nw x hparts.1
      case time => exact skel_structRecurse nw x hparts.1
      case slice => exact skel_sliceRecurse nw x hparts.1
      case map => exact skel_mapRecurse nw x hparts.1
      all_goals rfl
    cases hd :
        (match stripTy ety with
         | .struct => structRecurse nw x
         | .time => structRecurse nw x
         | .slice _ => sliceRecurse nw x
         | .map _ _ => mapRecurse nw x
         | _ => (x, .ok)) with
    | mk x' o =>
      have hx : skelOf x' = skelOf x := hdispatch (x', o) hd
      cases o with
      | ok =>
        cases hrest : fillElems nw ety rest with
        | mk rest' o' =>
          have ih : skelElems rest' = skelElems rest := by
            simpa [hrest] using skel_fillElems nw ety rest hparts.2
          simp [fillElems, hd, hrest, skelElems, hx, ih]
      | err e => simp [fillElems, hd, skelElems, hx]
      | panicked p => simp [fillElems, hd, skelElems, hx]

  termination_by xs h => (sizeOf xs, 0)
  decreasing_by all_goals (simp_wf; omega)
theorem skel_setDefMap (nw : Nat) :
    ∀ v : GoVal, wfVal v = true → skelOf (setDefMap nw v).1 = skelOf v
  | .vptr _ .none, _ => rfl
  | .vptr t (.some w), h => by
    have hw : wfVal w = true := by
      simp only [wfVal, wfOpt, Bool.and_eq_true] at h; exact h.2
    cases hrec : setDefMap nw w with
    | mk w' o =>
      have ih : skelOf w' = skelOf w := by
        simpa [hrec] using skel_setDefMap nw w hw
      simp [setDefMap, hrec, skelOf, skelOpt, ih]
  | .vmap kt vt es, h => by
    cases hrec : fillEntries nw vt es with
    | mk es' o =>
      have ih : skelEntries es' = skelEntries es := by
        simpa [hrec] using skel_fillEntries nw kt vt es
          (by simpa [wfVal] using h)
      simp [setDefMap, hrec, skelOf, ih]
  | .vstr _, _ => rfl
  | .vbool _, _ => rfl
  | .vint _ _, _ => rfl
  | .vuint _ _, _ => rfl
  | .vfloat _ _, _ => rfl
  | .vcplx _ _ _, _ => rfl
  | .vdur _, _ => rfl
  | .vtime _, _ => rfl
  | .vuptr _, _ => rfl
  | .vstruct _, _ => rfl
  | .vslice _ _ _, _ => rfl

  termination_by v h => (sizeOf v, 0)
  decreasing_by all_goals (simp_wf; omega)
theorem skel_mapRecurse (nw : Nat) :
    ∀ v : GoVal, wfVal v = true → skelOf (mapRecurse nw v).1 = skelOf v
  | .vptr _ .none, _ => rfl
  | .vptr t (.some w), h => by
    have hw : wfVal w = true := by
      simp only [wfVal, wfOpt, Bool.and_eq_true] at h; exact h.2
    cases hrec : setDefMap nw w with
    | mk w' o =>
      have ih : skelOf w' = skelOf w := by
        simpa [hrec] using skel_setDefMap nw w hw
      simp [mapRecurse, hrec, skelOf, skelOpt, ih]
  | .vmap kt vt es, h => by
    cases hrec : fillEntries nw vt es with
    | mk es' o =>
      have ih : skelEntries es' = skelEntries es := by
        simpa [hrec] using skel_fillEntries nw kt vt es
          (by simpa [wfVal] using h)
      simp [mapRecurse, hrec, skelOf, ih]
  | .vstr _, _ => rfl
  | .vbool _, _ => rfl
  | .vint _ _, _ => rfl
  | .vuint _ _, _ => rfl
  | .vfloat _ _, _ => rfl
  | .vcplx _ _ _, _ => rfl
  | .vdur _, _ => rfl
  | .vtime _, _ => rfl
  | .vuptr _, _ => rfl
  | .vstruct _, _ => rfl
  | .vslice _ _ _, _ => rfl

  termination_by v h => (sizeOf v, 0)
  decreasing_by all_goals (simp_wf; omega)
theorem skel_fillEntries (nw : Nat) (kt vt : Ty) :
    ∀ es : Entries, wfEntries kt vt es = true →
      skelEntries (fillEntries nw vt es).1 = skelEntries es
  | .nil, _ => rfl
  | .cons k x rest, h => by
    have hparts : wfVal x = true ∧ wfEntries kt vt rest = true := by
      simp only [wfEntries, Bool.and_eq_true, and_assoc] at h
      exact ⟨h.2.2.2.1, h.2.2.2.2⟩
    have hdispatch :
        ∀ p : GoVal × FillOut,
          (match stripTy vt with
           | .struct => structRecurse nw x
           | .time => structRecurse nw x
           | .slice _ => sliceRecurse nw x
           | .map _ _ => mapRecurse nw x
           | _ => (x, .ok)) = p →
          skelOf p.1 = skelOf x := by
      intro p hp
      rcases hst : stripTy vt <;> rw [hst] at hp <;> rw [← hp]
      case struct => exact skel_structRecurse nw x hparts.1
      case time => exact skel_structRecurse nw x hparts.1
      case slice => exact skel_sliceRecurse nw x hparts.1
      case map => exact skel_mapRecurse nw x hparts.1
      all_goals rfl
    cases hd :
        (match stripTy vt with
         | .struct => structRecurse nw x
         | .time => structRecurse nw x
         | .slice _ => sliceRecurse nw x
         | .map _ _ => mapRecurse nw x
         | _ => (x, .ok)) with
    | mk x' o =>
      have hx : skelOf x' = skelOf x := hdispatch (x', o) hd
      cases o with
      | ok =>
        cases hrest : fillEntries nw vt rest with
        | mk rest' o' =>
          have ih : skelEntries rest' = skelEntries rest := by
            simpa [hrest] using skel_fillEntries nw kt vt rest hparts.2
          simp [fillEntries, hd, hrest, skelEntries, hx, ih]
      | err e => cases x <;> simp [fillEntries, hd, skelEntries, hx]
      | panicked p => cases x <;> simp [fillEntries, hd, skelEntries, hx]
  termination_by es h => (sizeOf es, 0)
  decreasing_by all_goals (simp_wf; omega)
end

/-- C10: the defaulting walk preserves the shape of every container it
traverses — on a well-typed graph the skeleton (struct field
names/tags/types, slice element types, backing arrays and lengths, map
key/value types and the exact key set, pointer set/unset-ness) after
`SetDefaults` equals the skeleton before, whatever the outcome; only
scalar contents change.  In particular no map gains or loses a key
(each value is written back under its original key) and no sequence
changes its length. -/
theorem c10_shape_preservation (g : GoVal) (nw : Nat) (h : wfVal g = true) :
    skelOf (runSetDefaults nw g).1 = skelOf g := by
  rcases hk : stripTy (valKind g) with _ | _ | b | b | b | b | _ | _ | _
    | t0 | ety | ⟨kt, vt⟩ | _ <;>
  simp only [runSetDefaults, hk] <;>
  first
  | exact skel_setDefStruct nw g h
  | exact skel_setDefSlice nw g h
  | exact skel_setDefMap nw g h
  | rfl

/-- A well-typed graph with a slice of records and a map of records, as
in the repository's container-recursion test. -/
def c10Graph : GoVal :=
  .vstruct (.cons (.mk "addresssSlice" "" "" (.slice .struct)
      (.vslice .struct 3
        (.cons (.vstruct (.cons (.mk "city" "Berlin" "" .str (.vstr "")) .nil))
          (.cons (.vstruct (.cons (.mk "city" "Berlin" "" .str (.vstr "")) .nil))
            .nil))))
    (.cons (.mk "addressmap" "" "" (.map .str .struct)
      (.vmap .str .struct
        (.cons (.vstr "Haupt")
          (.vstruct (.cons (.mk "city" "Berlin" "" .str (.vstr "")) .nil))
          (.cons (.vstr "Neben")
            (.vstruct (.cons (.mk "city" "Berlin" "" .str (.vstr "")) .nil))
            .nil)))) .nil))

/-- C10 witness: `c10_shape_preservation` at the concrete container
graph. -/
theorem c10_shape_preservation_witness :
    wfVal c10Graph = true ∧
    skelOf (runSetDefaults 0 c10Graph).1 = skelOf c10Graph :=
  ⟨rfl, c10_shape_preservation c10Graph 0 rfl⟩

/-! ## Masking "now" timestamps

`maskNow` replaces the value of every struct field whose declared type is
`time.Time` and whose default descriptor is the (case-insensitive) `now`
sentinel by a fixed placeholder.  Two graphs equal after masking agree on
every field except those `now` timestamps — the exception the
idempotence claim makes. -/

mutual
def maskNowAux : GoVal → GoVal
  | .vptr t o => .vptr t (maskOpt o)
  | .vstruct fs => .vstruct (maskFields fs)
  | .vslice t r xs => .vslice t r (maskElems xs)
  | .vmap k v es => .vmap k v (maskEntries es)
  | v => v

def maskOpt : OptVal → OptVal
  | .none => .none
  | .some v => .some (maskNowAux v)

def maskField : FieldV → FieldV
  | .mk n d l t v =>
    if t = .time ∧ asciiLower d = "now" then .mk n d l t (.vtime (.now 0))
    else .mk n d l t (maskNowAux v)

def maskFields : Fields → Fields
  | .nil => .nil
  | .cons f rest => .cons (maskField f) (maskFields rest)

def maskElems : Elems → Elems
  | .nil => .nil
  | .cons v rest => .cons (maskNowAux v) (maskElems rest)

def maskEntries : Entries → Entries
  | .nil => .nil
  | .cons k v rest => .cons k (maskNowAux v) (maskEntries rest)
end

/-- Descriptor parsing for a non-timestamp leaf type does not read the
clock. -/
theorem parse_now_indep {t : Ty} (ht : leafTy t = true) (hnt : t ≠ .time)
    (d l : String) (n₁ n₂ : Nat) :
    parseDefaultValue d l t n₂ = parseDefaultValue d l t n₁ := by
  cases t <;> first
  | rfl
  | exact absurd rfl hnt
  | (exfalso; revert ht; simp [leafTy]; done)

/-! ### The walk's outcome does not depend on the clock

The wall-clock tick influences only the values written for `now`
timestamp fields, never whether a step succeeds, errors, or panics. -/

set_option maxHeartbeats 2000000 in
mutual
theorem outInv_setDefStruct (n₁ n₂ : Nat) :
    ∀ v : GoVal, (setDefStruct n₂ v).2 = (setDefStruct n₁ v).2
  | .vptr _ .none => rfl
  | .vptr t (.some w) => by
    cases h1 : setDefStruct n₁ w with
    | mk w1 o1 =>
      cases h2 : setDefStruct n₂ w with
      | mk w2 o2 =>
        have ih : o2 = o1 := by
          simpa [h1, h2] using outInv_setDefStruct n₁ n₂ w
        simp [setDefStruct, h1, h2, ih]
  | .vstruct fs => by
    cases h1 : fillFields n₁ .ok fs with
    | mk fs1 o1 =>
      cases h2 : fillFields n₂ .ok fs with
      | mk fs2 o2 =>
        have ih : o2 = o1 := by
          simpa [h1, h2] using outInv_fillFields n₁ n₂ .ok fs
        simp [setDefStruct, h1, h2, ih]
  | .vstr _ => rfl
  | .vbool _ => rfl
  | .vint _ _ => rfl
  | .vuint _ _ => rfl
  | .vfloat _ _ => rfl
  | .vcplx _ _ _ => rfl
  | .vdur _ => rfl
  | .vtime _ => rfl
  | .vuptr _ => rfl
  | .vslice _ _ _ => rfl
  | .vmap _ _ _ => rfl
  termination_by v => (sizeOf v, 0)
  decreasing_by all_goals (simp_wf; omega)

theorem outInv_structRecurse (n₁ n₂ : Nat) :
    ∀ v : GoVal, (structRecurse n₂ v).2 = (structRecurse n₁ v).2
  | .vptr _ .none => rfl
  | .vptr t (.some w) => by
    cases h1 : setDefStruct n₁ w with
    | mk w1 o1 =>
      cases h2 : setDefStruct n₂ w with
      | mk w2 o2 =>
        have ih : o2 = o1 := by
          simpa [h1, h2] using outInv_setDefStruct n₁ n₂ w
        simp [structRecurse, h1, h2, ih]
  | .vstruct fs => by
    cases h1 : fillFields n₁ .ok fs with
    | mk fs1 o1 =>
      cases h2 : fillFields n₂ .ok fs with
      | mk fs2 o2 =>
        have ih : o2 = o1 := by
          simpa [h1, h2] using outInv_fillFields n₁ n₂ .ok fs
        simp [structRecurse, h1, h2, ih]
  | .vstr _ => rfl
  | .vbool _ => rfl
  | .vint _ _ => rfl
  | .vuint _ _ => rfl
  | .vfloat _ _ => rfl
  | .vcplx _ _ _ => rfl
  | .vdur _ => rfl
  | .vtime _ => rfl
  | .vuptr _ => rfl
  | .vslice _ _ _ => rfl
  | .vmap _ _ _ => rfl
  termination_by v => (sizeOf v, 0)
  decreasing_by all_goals (simp_wf; omega)

theorem outInv_fieldStep (n₁ n₂ : Nat) :
    ∀ f : FieldV, (fieldStep n₂ f).2 = (fieldStep n₁ f).2
  | .mk n d l t v => by
    rcases hst : stripTy t with _ | _ | bits | bits | bits | bits | _ | _ | _
      | t0 | ety | ⟨kt, vt⟩ | _
    case ptr => exact absurd hst (stripTy_ne_ptr t t0)
    case struct =>
      by_cases hcond : t = .time ∧ d ≠ ""
      · rw [hcond.1] at hst; exact absurd hst (by simp [stripTy])
      · cases h1 : structRecurse n₁ v with
        | mk v1 o1 =>
          cases h2 : structRecurse n₂ v with
          | mk v2 o2 =>
            have ih : o2 = o1 := by
              simpa [h1, h2] using outInv_structRecurse n₁ n₂ v
            subst ih
            cases o2 <;> simp [fieldStep, stripTy, hst, hcond, h1, h2]
    case time =>
      by_cases hcond : t = .time ∧ d ≠ ""
      · obtain ⟨ht2, hd⟩ := hcond
        subst ht2
        by_cases hlow : asciiLower d = "now" <;>
          simp [fieldStep, stripTy, hd, parseDefaultValue, hlow,
            setUnexportedField]
      · cases h1 : structRecurse n₁ v with
        | mk v1 o1 =>
          cases h2 : structRecurse n₂ v with
          | mk v2 o2 =>
            have ih : o2 = o1 := by
              simpa [h1, h2] using outInv_structRecurse n₁ n₂ v
            subst ih
            cases o2 <;> simp [fieldStep, stripTy, hst, hcond, h1, h2]
    case slice =>
      cases h1 : sliceRecurse n₁ v with
      | mk v1 o1 =>
        cases h2 : sliceRecurse n₂ v with
        | mk v2 o2 =>
          have ih : o2 = o1 := by
            simpa [h1, h2] using outInv_sliceRecurse n₁ n₂ v
          subst ih
          cases o2 <;> simp [fieldStep, stripTy, hst, h1, h2]
    case map =>
      cases h1 : mapRecurse n₁ v with
      | mk v1 o1 =>
        cases h2 : mapRecurse n₂ v with
        | mk v2 o2 =>
          have ih : o2 = o1 := by
            simpa [h1, h2] using outInv_mapRecurse n₁ n₂ v
          subst ih
          cases o2 <;> simp [fieldStep, stripTy, hst, h1, h2]
    all_goals (
      by_cases hd : d ≠ ""
      · have hpi : parseDefaultValue d l (stripTy t) n₂
            = parseDefaultValue d l (stripTy t) n₁ := by
          rw [hst]
          exact parse_now_indep (by rfl) (by simp) d l n₁ n₂
        rw [hst] at hpi
        simp [fieldStep, stripTy, hst, hd, hpi]
      · simp [fieldStep, stripTy, hst, hd])
  termination_by f => (sizeOf f, 1)
  decreasing_by all_goals (simp_wf; omega)

theorem outInv_fillFields (n₁ n₂ : Nat) :
    ∀ (acc : FillOut) (fs : Fields),
      (fillFields n₂ acc fs).2 = (fillFields n₁ acc fs).2
  | _, .nil => rfl
  | acc, .cons f rest => by
    cases hf1 : fieldStep n₁ f with
    | mk f1 sr1 =>
      cases hf2 : fieldStep n₂ f with
      | mk f2 sr2 =>
        have ihf : sr2 = sr1 := by
          simpa [hf1, hf2] using outInv_fieldStep n₁ n₂ f
        subst ihf
        cases sr2 with
        | stop o => simp [fillFields, hf1, hf2]
        | setAcc o =>
          cases hr1 : fillFields n₁ o rest with
          | mk rest1 o1 =>
            cases hr2 : fillFields n₂ o rest with
            | mk rest2 o2 =>
              have ih : o2 = o1 := by
                simpa [hr1, hr2] using outInv_fillFields n₁ n₂ o rest
              simp [fillFields, hf1, hf2, hr1, hr2, ih]
        | keepAcc =>
          cases hr1 : fillFields n₁ acc rest with
          | mk rest1 o1 =>
            cases hr2 : fillFields n₂ acc rest with
            | mk rest2 o2 =>
              have ih : o2 = o1 := by
                simpa [hr1, hr2] using outInv_fillFields n₁ n₂ acc rest
              simp [fillFields, hf1, hf2, hr1, hr2, ih]
  termination_by acc fs => (sizeOf fs, 0)
  decreasing_by all_goals (simp_wf; omega)

theorem outInv_setDefSlice (n₁ n₂ : Nat) :
    ∀ v : GoVal, (setDefSlice n₂ v).2 = (setDefSlice n₁ v).2
  | .vptr _ .none => rfl
  | .vptr t (.some w) => by
    cases h1 : setDefSlice n₁ w with
    | mk w1 o1 =>
      cases h2 : setDefSlice n₂ w with
      | mk w2 o2 =>
        have ih : o2 = o1 := by
          simpa [h1, h2] using outInv_setDefSlice n₁ n₂ w
        simp [setDefSlice, h1, h2, ih]
  | .vslice ety r xs => by
    cases h1 : fillElems n₁ ety xs with
    | mk xs1 o1 =>
      cases h2 : fillElems n₂ ety xs with
      | mk xs2 o2 =>
        have ih : o2 = o1 := by
          simpa [h1, h2] using outInv_fillElems n₁ n₂ ety xs
        simp [setDefSlice, h1, h2, ih]
  | .vstr _ => rfl
  | .vbool _ => rfl
  | .vint _ _ => rfl
  | .vuint _ _ => rfl
  | .vfloat _ _ => rfl
  | .vcplx _ _ _ => rfl
  | .vdur _ => rfl
  | .vtime _ => rfl
  | .vuptr _ => rfl
  | .vstruct _ => rfl
  | .vmap _ _ _ => rfl
  termination_by v => (sizeOf v, 0)
  decreasing_by all_goals (simp_wf; omega)

theorem outInv_sliceRecurse (n₁ n₂ : Nat) :
    ∀ v : GoVal, (sliceRecurse n₂ v).2 = (sliceRecurse n₁ v).2
  | .vptr _ .none => rfl
  | .vptr t (.some w) => by
    cases h1 : setDefSlice n₁ w with
    | mk w1 o1 =>
      cases h2 : setDefSlice n₂ w with
      | mk w2 o2 =>
        have ih : o2 = o1 := by
          simpa [h1, h2] using outInv_setDefSlice n₁ n₂ w
        simp [sliceRecurse, h1, h2, ih]
  | .vslice ety r xs => by
    cases h1 : fillElems n₁ ety xs with
    | mk xs1 o1 =>
      cases h2 : fillElems n₂ ety xs with
      | mk xs2 o2 =>
        have ih : o2 = o1 := by
          simpa [h1, h2] using outInv_fillElems n₁ n₂ ety xs
        simp [sliceRecurse, h1, h2, ih]
  | .vstr _ => rfl
  | .vbool _ => rfl
  | .vint _ _ => rfl
  | .vuint _ _ => rfl
  | .vfloat _ _ => rfl
  | .vcplx _ _ _ => rfl
  | .vdur _ => rfl
  | .vtime _ => rfl
  | .vuptr _ => rfl
  | .vstruct _ => rfl
  | .vmap _ _ _ => rfl
  termination_by v => (sizeOf v, 0)
  decreasing_by all_goals (simp_wf; omega)

theorem outInv_fillElems (n₁ n₂ : Nat) (ety : Ty) :
    ∀ xs : Elems, (fillElems n₂ ety xs).2 = (fillElems n₁ ety xs).2
  | .nil => rfl
  | .cons x rest => by
    rcases hst : stripTy ety with _ | _ | b | b | b | b | _ | _ | _
      | t0 | ety0 | ⟨kt, vt⟩ | _
    case ptr => exact absurd hst (stripTy_ne_ptr ety t0)
    case struct =>
      cases h1 : structRecurse n₁ x with
      | mk x1 o1 =>
        cases h2 : structRecurse n₂ x with
        | mk x2 o2 =>
          have ihx : o2 = o1 := by
            simpa [h1, h2] using outInv_structRecurse n₁ n₂ x
          subst ihx
          cases o2 with
          | ok =>
            cases hr1 : fillElems n₁ ety rest with
            | mk rest1 o1 =>
              cases hr2 : fillElems n₂ ety rest with
              | mk rest2 o2 =>
                have ih : o2 = o1 := by
                  simpa [hr1, hr2] using outInv_fillElems n₁ n₂ ety rest
                simp [fillElems, hst, h1, h2, hr1, hr2, ih]
          | err e => simp [fillElems, hst, h1, h2]
          | panicked p => simp [fillElems, hst, h1, h2]
    case time =>
      cases h1 : structRecurse n₁ x with
      | mk x1 o1 =>
        cases h2 : structRecurse n₂ x with
        | mk x2 o2 =>
          have ihx : o2 = o1 := by
            simpa [h1, h2] using outInv_structRecurse n₁ n₂ x
          subst ihx
          cases o2 with
          | ok =>
            cases hr1 : fillElems n₁ ety rest with
            | mk rest1 o1 =>
              cases hr2 : fillElems n₂ ety rest with
              | mk rest2 o2 =>
                have ih : o2 = o1 := by
                  simpa [hr1, hr2] using outInv_fillElems n₁ n₂ ety rest
                simp [fillElems, hst, h1, h2, hr1, hr2, ih]
          | err e => simp [fillElems, hst, h1, h2]
          | panicked p => simp [fillElems, hst, h1, h2]
    case slice =>
      cases h1 : sliceRecurse n₁ x with
      | mk x1 o1 =>
        cases h2 : sliceRecurse n₂ x with
        | mk x2 o2 =>
          have ihx : o2 = o1 := by
            simpa [h1, h2] using outInv_sliceRecurse n₁ n₂ x
          subst ihx
          cases o2 with
          | ok =>
            cases hr1 : fillElems n₁ ety rest with
            | mk rest1 o1 =>
              cases hr2 : fillElems n₂ ety rest with
              | mk rest2 o2 =>
                have ih : o2 = o1 := by
                  simpa [hr1, hr2] using outInv_fillElems n₁ n₂ ety rest
                simp [fillElems, hst, h1, h2, hr1, hr2, ih]
          | err e => simp [fillElems, hst, h1, h2]
          | panicked p => simp [fillElems, hst, h1, h2]
    case map =>
      cases h1 : mapRecurse n₁ x with
      | mk x1 o1 =>
        cases h2 : mapRecurse n₂ x with
        | mk x2 o2 =>
          have ihx : o2 = o1 := by
            simpa [h1, h2] using outInv_mapRecurse n₁ n₂ x
          subst ihx
          cases o2 with
          | ok =>
            cases hr1 : fillElems n₁ ety rest with
            | mk rest1 o1 =>
              cases hr2 : fillElems n₂ ety rest with
              | mk rest2 o2 =>
                have ih : o2 = o1 := by
                  simpa [hr1, hr2] using outInv_fillElems n₁ n₂ ety rest
                simp [fillElems, hst, h1, h2, hr1, hr2, ih]
          | err e => simp [fillElems, hst, h1, h2]
          | panicked p => simp [fillElems, hst, h1, h2]
    all_goals (
      cases hr1 : fillElems n₁ ety rest with
      | mk rest1 o1 =>
        cases hr2 : fillElems n₂ ety rest with
        | mk rest2 o2 =>
          have ih : o2 = o1 := by
            simpa [hr1, hr2] using outInv_fillElems n₁ n₂ ety rest
          simp [fillElems, hst, hr1, hr2, ih])
  termination_by xs => (sizeOf xs, 0)
  decreasing_by all_goals (simp_wf; omega)

theorem outInv_setDefMap (n₁ n₂ : Nat) :
    ∀ v : GoVal, (setDefMap n₂ v).2 = (setDefMap n₁ v).2
  | .vptr _ .none => rfl
  | .vptr t (.some w) => by
    cases h1 : setDefMap n₁ w with
    | mk w1 o1 =>
      cases h2 : setDefMap n₂ w with
      | mk w2 o2 =>
        have ih : o2 = o1 := by
          simpa [h1, h2] using outInv_setDefMap n₁ n₂ w
        simp [setDefMap, h1, h2, ih]
  | .vmap kt vt es => by
    cases h1 : fillEntries n₁ vt es with
    | mk es1 o1 =>
      cases h2 : fillEntries n₂ vt es with
      | mk es2 o2 =>
        have ih : o2 = o1 := by
          simpa [h1, h2] using outInv_fillEntries n₁ n₂ vt es
        simp [setDefMap, h1, h2, ih]
  | .vstr _ => rfl
  | .vbool _ => rfl
  | .vint _ _ => rfl
  | .vuint _ _ => rfl
  | .vfloat _ _ => rfl
  | .vcplx _ _ _ => rfl
  | .vdur _ => rfl
  | .vtime _ => rfl
  | .vuptr _ => rfl
  | .vstruct _ => rfl
  | .vslice _ _ _ => rfl
  termination_by v => (sizeOf v, 0)
  decreasing_by all_goals (simp_wf; omega)

theorem outInv_mapRecurse (n₁ n₂ : Nat) :
    ∀ v : GoVal, (mapRecurse n₂ v).2 = (mapRecurse n₁ v).2
  | .vptr _ .none => rfl
  | .vptr t (.some w) => by
    cases h1 : setDefMap n₁ w with
    | mk w1 o1 =>
      cases h2 : setDefMap n₂ w with
      | mk w2 o2 =>
        have ih : o2 = o1 := by
          simpa [h1, h2] using outInv_setDefMap n₁ n₂ w
        simp [mapRecurse, h1, h2, ih]
  | .vmap kt vt es => by
    cases h1 : fillEntries n₁ vt es with
    | mk es1 o1 =>
      cases h2 : fillEntries n₂ vt es with
      | mk es2 o2 =>
        have ih : o2 = o1 := by
          simpa [h1, h2] using outInv_fillEntries n₁ n₂ vt es
        simp [mapRecurse, h1, h2, ih]
  | .vstr _ => rfl
  | .vbool _ => rfl
  | .vint _ _ => rfl
  | .vuint _ _ => rfl
  | .vfloat _ _ => rfl
  | .vcplx _ _ _ => rfl
  | .vdur _ => rfl
  | .vtime _ => rfl
  | .vuptr _ => rfl
  | .vstruct _ => rfl
  | .vslice _ _ _ => rfl
  termination_by v => (sizeOf v, 0)
  decreasing_by all_goals (simp_wf; omega)

theorem outInv_fillEntries (n₁ n₂ : Nat) (vt : Ty) :
    ∀ es : Entries, (fillEntries n₂ vt es).2 = (fillEntries n₁ vt es).2
  | .nil => rfl
  | .cons k x rest => by
    rcases hst : stripTy vt with _ | _ | b | b | b | b | _ | _ | _
      | t0 | ety0 | ⟨kt0, vt0⟩ | _
    case ptr => exact absurd hst (stripTy_ne_ptr vt t0)
    case struct =>
      cases h1 : structRecurse n₁ x with
      | mk x1 o1 =>
        cases h2 : structRecurse n₂ x with
        | mk x2 o2 =>
          have ihx : o2 = o1 := by
            simpa [h1, h2] using outInv_structRecurse n₁ n₂ x
          subst ihx
          cases o2 with
          | ok =>
            cases hr1 : fillEntries n₁ vt rest with
            | mk rest1 o1 =>
              cases hr2 : fillEntries n₂ vt rest with
              | mk rest2 o2 =>
                have ih : o2 = o1 := by
                  simpa [hr1, hr2] using outInv_fillEntries n₁ n₂ vt rest
                simp [fillEntries, hst, h1, h2, hr1, hr2, ih]
          | err e => cases x <;> simp [fillEntries, hst, h1, h2]
          | panicked p => cases x <;> simp [fillEntries, hst, h1, h2]
    case time =>
      cases h1 : structRecurse n₁ x with
      | mk x1 o1 =>
        cases h2 : structRecurse n₂ x with
        | mk x2 o2 =>
          have ihx : o2 = o1 := by
            simpa [h1, h2] using outInv_structRecurse n₁ n₂ x
          subst ihx
          cases o2 with
          | ok =>
            cases hr1 : fillEntries n₁ vt rest with
            | mk rest1 o1 =>
              cases hr2 : fillEntries n₂ vt rest with
              | mk rest2 o2 =>
                have ih : o2 = o1 := by
                  simpa [hr1, hr2] using outInv_fillEntries n₁ n₂ vt rest
                simp [fillEntries, hst, h1, h2, hr1, hr2, ih]
          | err e => cases x <;> simp [fillEntries, hst, h1, h2]
          | panicked p => cases x <;> simp [fillEntries, hst, h1, h2]
    case slice =>
      cases h1 : sliceRecurse n₁ x with
      | mk x1 o1 =>
        cases h2 : sliceRecurse n₂ x with
        | mk x2 o2 =>
          have ihx : o2 = o1 := by
            simpa [h1, h2] using outInv_sliceRecurse n₁ n₂ x
          subst ihx
          cases o2 with
          | ok =>
            cases hr1 : fillEntries n₁ vt rest with
            | mk rest1 o1 =>
              cases hr2 : fillEntries n₂ vt rest with
              | mk rest2 o2 =>
                have ih : o2 = o1 := by
                  simpa [hr1, hr2] using outInv_fillEntries n₁ n₂ vt rest
                simp [fillEntries, hst, h1, h2, hr1, hr2, ih]
          | err e => cases x <;> simp [fillEntries, hst, h1, h2]
          | panicked p => cases x <;> simp [fillEntries, hst, h1, h2]
    case map =>
      cases h1 : mapRecurse n₁ x with
      | mk x1 o1 =>
        cases h2 : mapRecurse n₂ x with
        | mk x2 o2 =>
          have ihx : o2 = o1 := by
            simpa [h1, h2] using outInv_mapRecurse n₁ n₂ x
          subst ihx
          cases o2 with
          | ok =>
            cases hr1 : fillEntries n₁ vt rest with
            | mk rest1 o1 =>
              cases hr2 : fillEntries n₂ vt rest with
              | mk rest2 o2 =>
                have ih : o2 = o1 := by
                  simpa [hr1, hr2] using outInv_fillEntries n₁ n₂ vt rest
                simp [fillEntries, hst, h1, h2, hr1, hr2, ih]
          | err e => cases x <;> simp [fillEntries, hst, h1, h2]
          | panicked p => cases x <;> simp [fillEntries, hst, h1, h2]
    all_goals (
      cases hr1 : fillEntries n₁ vt rest with
      | mk rest1 o1 =>
        cases hr2 : fillEntries n₂ vt rest with
        | mk rest2 o2 =>
          have ih : o2 = o1 := by
            simpa [hr1, hr2] using outInv_fillEntries n₁ n₂ vt rest
          simp [fillEntries, hst, hr1, hr2, ih])
  termination_by es => (sizeOf es, 0)
  decreasing_by all_goals (simp_wf; omega)
end

/-! ### Support lemmas for the idempotence proof -/

/-- The element dispatch shared by the slice and map loops, as a named
function; it is definitionally the match inlined in `fillElems` and
`fillEntries`. -/
def elemDispatch (now : Nat) (ety : Ty) (x : GoVal) : GoVal × FillOut :=
  match stripTy ety with
  | .struct => structRecurse now x
  | .time => structRecurse now x
  | .slice _ => sliceRecurse now x
  | .map _ _ => mapRecurse now x
  | _ => (x, .ok)

theorem fillElems_cons (now : Nat) (ety : Ty) (x : GoVal) (rest : Elems) :
    fillElems now ety (.cons x rest) =
      match elemDispatch now ety x with
      | (x', .ok) =>
        match fillElems now ety rest with
        | (rest', o) => (.cons x' rest', o)
      | (x', o) => (.cons x' rest, o) := rfl

def isPtrV : GoVal → Bool
  | .vptr _ _ => true
  | _ => false

theorem fillEntries_cons (now : Nat) (vt : Ty) (k x : GoVal) (rest : Entries) :
    fillEntries now vt (.cons k x rest) =
      match elemDispatch now vt x with
      | (x', .ok) =>
        match fillEntries now vt rest with
        | (rest', o) => (.cons k x' rest', o)
      | (x', o) =>
        if isPtrV x then (.cons k x' rest, o) else (.cons k x rest, o) := by
  cases x <;> rfl

theorem outInv_elemDispatch (n₁ n₂ : Nat) (ety : Ty) (x : GoVal) :
    (elemDispatch n₂ ety x).2 = (elemDispatch n₁ ety x).2 := by
  rcases hst : stripTy ety with _ | _ | b | b | b | b | _ | _ | _
    | t0 | e0 | ⟨k0, v0⟩ | _ <;>
  simp only [elemDispatch, hst] <;>
  first
  | exact outInv_structRecurse n₁ n₂ x
  | exact outInv_sliceRecurse n₁ n₂ x
  | exact outInv_mapRecurse n₁ n₂ x
  | rfl

theorem structRecurse_ptr (now : Nat) : ∀ x : GoVal,
    isPtrV (structRecurse now x).1 = isPtrV x
  | .vptr _ .none => rfl
  | .vptr t (.some w) => by
    cases h : setDefStruct now w with
    | mk w' o => simp [structRecurse, h, isPtrV]
  | .vstruct fs => by
    cases h : fillFields now .ok fs with
    | mk fs' o => simp [structRecurse, h, isPtrV]
  | .vstr _ => rfl
  | .vbool _ => rfl
  | .vint _ _ => rfl
  | .vuint _ _ => rfl
  | .vfloat _ _ => rfl
  | .vcplx _ _ _ => rfl
  | .vdur _ => rfl
  | .vtime _ => rfl
  | .vuptr _ => rfl
  | .vslice _ _ _ => rfl
  | .vmap _ _ _ => rfl

theorem sliceRecurse_ptr (now : Nat) : ∀ x : GoVal,
    isPtrV (sliceRecurse now x).1 = isPtrV x
  | .vptr _ .none => rfl
  | .vptr t (.some w) => by
    cases h : setDefSlice now w with
    | mk w' o => simp [sliceRecurse, h, isPtrV]
  | .vslice ety r xs => by
    cases h : fillElems now ety xs with
    | mk xs' o => simp [sliceRecurse, h, isPtrV]
  | .vstr _ => rfl
  | .vbool _ => rfl
  | .vint _ _ => rfl
  | .vuint _ _ => rfl
  | .vfloat _ _ => rfl
  | .vcplx _ _ _ => rfl
  | .vdur _ => rfl
  | .vtime _ => rfl
  | .vuptr _ => rfl
  | .vstruct _ => rfl
  | .vmap _ _ _ => rfl

theorem mapRecurse_ptr (now : Nat) : ∀ x : GoVal,
    isPtrV (mapRecurse now x).1 = isPtrV x
  | .vptr _ .none => rfl
  | .vptr t (.some w) => by
    cases h : setDefMap now w with
    | mk w' o => simp [mapRecurse, h, isPtrV]
  | .vmap kt vt es => by
    cases h : fillEntries now vt es with
    | mk es' o => simp [mapRecurse, h, isPtrV]
  | .vstr _ => rfl
  | .vbool _ => rfl
  | .vint _ _ => rfl
  | .vuint _ _ => rfl
  | .vfloat _ _ => rfl
  | .vcplx _ _ _ => rfl
  | .vdur _ => rfl
  | .vtime _ => rfl
  | .vuptr _ => rfl
  | .vstruct _ => rfl
  | .vslice _ _ _ => rfl

theorem elemDispatch_ptr (now : Nat) (ety : Ty) (x : GoVal) :
    isPtrV (elemDispatch now ety x).1 = isPtrV x := by
  rcases hst : stripTy ety with _ | _ | b | b | b | b | _ | _ | _
    | t0 | e0 | ⟨k0, v0⟩ | _ <;>
  simp only [elemDispatch, hst] <;>
  first
  | exact structRecurse_ptr now x
  | exact sliceRecurse_ptr now x
  | exact mapRecurse_ptr now x
  | rfl

theorem asciiLower_now_ne_empty {d : String} (h : asciiLower d = "now") :
    d ≠ "" := by
  intro he
  subst he
  exact absurd h (by decide)

/-! ### Idempotence of the walk, up to `now` timestamps

Running the walk a second time (at a possibly different clock tick)
produces a graph equal to the first run's output after masking `now`
timestamp fields, and the same outcome.  The proof threads through every
walker function mutually. -/

set_option maxHeartbeats 2000000 in
mutual
theorem idem_setDefStruct (n₁ n₂ : Nat) : ∀ v : GoVal,
    maskNowAux (setDefStruct n₂ (setDefStruct n₁ v).1).1
      = maskNowAux (setDefStruct n₁ v).1 ∧
    (setDefStruct n₂ (setDefStruct n₁ v).1).2 = (setDefStruct n₁ v).2
  | .vptr _ .none => ⟨rfl, rfl⟩
  | .vptr t (.some w) => by
    cases h1 : setDefStruct n₁ w with
    | mk w1 o1 =>
      cases h2 : setDefStruct n₂ w1 with
      | mk w2 o2 =>
        have ih : maskNowAux w2 = maskNowAux w1 ∧ o2 = o1 := by
          simpa [h1, h2] using idem_setDefStruct n₁ n₂ w
        refine ⟨?_, ?_⟩ <;>
          simp [setDefStruct, h1, h2, maskNowAux, maskOpt, ih.1, ih.2]
  | .vstruct fs => by
    cases h1 : fillFields n₁ .ok fs with
    | mk fs1 o1 =>
      cases h2 : fillFields n₂ .ok fs1 with
      | mk fs2 o2 =>
        have ih : maskFields fs2 = maskFields fs1 ∧ o2 = o1 := by
          simpa [h1, h2] using idem_fillFields n₁ n₂ .ok fs
        refine ⟨?_, ?_⟩ <;>
          simp [setDefStruct, h1, h2, maskNowAux, ih.1, ih.2]
  | .vstr _ => ⟨rfl, rfl⟩
  | .vbool _ => ⟨rfl, rfl⟩
  | .vint _ _ => ⟨rfl, rfl⟩
  | .vuint _ _ => ⟨rfl, rfl⟩
  | .vfloat _ _ => ⟨rfl, rfl⟩
  | .vcplx _ _ _ => ⟨rfl, rfl⟩
  | .vdur _ => ⟨rfl, rfl⟩
  | .vtime _ => ⟨rfl, rfl⟩
  | .vuptr _ => ⟨rfl, rfl⟩
  | .vslice _ _ _ => ⟨rfl, rfl⟩
  | .vmap _ _ _ => ⟨rfl, rfl⟩
  termination_by v => (sizeOf v, 0)
  decreasing_by all_goals (simp_wf; omega)

theorem idem_structRecurse (n₁ n₂ : Nat) : ∀ v : GoVal,
    maskNowAux (structRecurse n₂ (structRecurse n₁ v).1).1
      = maskNowAux (structRecurse n₁ v).1 ∧
    (structRecurse n₂ (structRecurse n₁ v).1).2 = (structRecurse n₁ v).2
  | .vptr _ .none => ⟨rfl, rfl⟩
  | .vptr t (.some w) => by
    cases h1 : setDefStruct n₁ w with
    | mk w1 o1 =>
      cases h2 : setDefStruct n₂ w1 with
      | mk w2 o2 =>
        have ih : maskNowAux w2 = maskNowAux w1 ∧ o2 = o1 := by
          simpa [h1, h2] using idem_setDefStruct n₁ n₂ w
        refine ⟨?_, ?_⟩ <;>
          simp [structRecurse, h1, h2, maskNowAux, maskOpt, ih.1, ih.2]
  | .vstruct fs => by
    cases h1 : fillFields n₁ .ok fs with
    | mk fs1 o1 =>
      cases h2 : fillFields n₂ .ok fs1 with
      | mk fs2 o2 =>
        have ih : maskFields fs2 = maskFields fs1 ∧ o2 = o1 := by
          simpa [h1, h2] using idem_fillFields n₁ n₂ .ok fs
        refine ⟨?_, ?_⟩ <;>
          simp [structRecurse, h1, h2, maskNowAux, ih.1, ih.2]
  | .vstr _ => ⟨rfl, rfl⟩
  | .vbool _ => ⟨rfl, rfl⟩
  | .vint _ _ => ⟨rfl, rfl⟩
  | .vuint _ _ => ⟨rfl, rfl⟩
  | .vfloat _ _ => ⟨rfl, rfl⟩
  | .vcplx _ _ _ => ⟨rfl, rfl⟩
  | .vdur _ => ⟨rfl, rfl⟩
  | .vtime _ => ⟨rfl, rfl⟩
  | .vuptr _ => ⟨rfl, rfl⟩
  | .vslice _ _ _ => ⟨rfl, rfl⟩
  | .vmap _ _ _ => ⟨rfl, rfl⟩
  termination_by v => (sizeOf v, 0)
  decreasing_by all_goals (simp_wf; omega)

theorem idem_fieldStep (n₁ n₂ : Nat) : ∀ f : FieldV,
    maskField (fieldStep n₂ (fieldStep n₁ f).1).1
      = maskField (fieldStep n₁ f).1 ∧
    (fieldStep n₂ (fieldStep n₁ f).1).2 = (fieldStep n₁ f).2
  | .mk n d l t v => by
    rcases hst : stripTy t with _ | _ | bits | bits | bits | bits | _ | _ | _
      | t0 | ety | ⟨kt, vt⟩ | _
    case ptr => exact absurd hst (stripTy_ne_ptr t t0)
    case struct =>
      by_cases hcond : t = Ty.time ∧ d ≠ ""
      · rw [hcond.1] at hst; exact absurd hst (by simp [stripTy])
      · have hnt : ¬(t = Ty.time ∧ asciiLower d = "now") := by
          rintro ⟨he, _⟩
          rw [he] at hst
          simp [stripTy] at hst
        cases h1 : structRecurse n₁ v with
        | mk v1 o1 =>
          cases h2 : structRecurse n₂ v1 with
          | mk v2 o2 =>
            have ih : maskNowAux v2 = maskNowAux v1 ∧ o2 = o1 := by
              simpa [h1, h2] using idem_structRecurse n₁ n₂ v
            obtain ⟨ih1, ih2⟩ := ih
            subst ih2
            cases o2 <;>
              refine ⟨?_, ?_⟩ <;>
                simp [fieldStep, stripTy, hst, hcond, h1, h2, maskField,
                  hnt, ih1]
    case time =>
      by_cases hcond : t = Ty.time ∧ d ≠ ""
      · obtain ⟨ht2, hd⟩ := hcond
        subst ht2
        by_cases hlow : asciiLower d = "now"
        · refine ⟨?_, ?_⟩ <;>
            simp [fieldStep, stripTy, hd, parseDefaultValue, hlow,
              setUnexportedField, maskField]
        · refine ⟨?_, ?_⟩ <;>
            simp [fieldStep, stripTy, hd, parseDefaultValue, hlow,
              setUnexportedField, maskField]
      · have hnt : ¬(t = Ty.time ∧ asciiLower d = "now") := by
          rintro ⟨he, hlow⟩
          exact hcond ⟨he, asciiLower_now_ne_empty hlow⟩
        cases h1 : structRecurse n₁ v with
        | mk v1 o1 =>
          cases h2 : structRecurse n₂ v1 with
          | mk v2 o2 =>
            have ih : maskNowAux v2 = maskNowAux v1 ∧ o2 = o1 := by
              simpa [h1, h2] using idem_structRecurse n₁ n₂ v
            obtain ⟨ih1, ih2⟩ := ih
            subst ih2
            cases o2 <;>
              refine ⟨?_, ?_⟩ <;>
                simp [fieldStep, stripTy, hst, hcond, h1, h2, maskField,
                  hnt, ih1]
    case slice =>
      have hnt : ¬(t = Ty.time ∧ asciiLower d = "now") := by
        rintro ⟨he, _⟩
        rw [he] at hst
        simp [stripTy] at hst
      cases h1 : sliceRecurse n₁ v with
      | mk v1 o1 =>
        cases h2 : sliceRecurse n₂ v1 with
        | mk v2 o2 =>
          have ih : maskNowAux v2 = maskNowAux v1 ∧ o2 = o1 := by
            simpa [h1, h2] using idem_sliceRecurse n₁ n₂ v
          obtain ⟨ih1, ih2⟩ := ih
          subst ih2
          cases o2 <;>
            refine ⟨?_, ?_⟩ <;>
              simp [fieldStep, stripTy, hst, h1, h2, maskField, hnt, ih1]
    case map =>
      have hnt : ¬(t = Ty.time ∧ asciiLower d = "now") := by
        rintro ⟨he, _⟩
        rw [he] at hst
        simp [stripTy] at hst
      cases h1 : mapRecurse n₁ v with
      | mk v1 o1 =>
        cases h2 : mapRecurse n₂ v1 with
        | mk v2 o2 =>
          have ih : maskNowAux v2 = maskNowAux v1 ∧ o2 = o1 := by
            simpa [h1, h2] using idem_mapRecurse n₁ n₂ v
          obtain ⟨ih1, ih2⟩ := ih
          subst ih2
          cases o2 <;>
            refine ⟨?_, ?_⟩ <;>
              simp [fieldStep, stripTy, hst, h1, h2, maskField, hnt, ih1]
    all_goals (
      by_cases hd : d ≠ ""
      · have hpi : parseDefaultValue d l (stripTy t) n₂
            = parseDefaultValue d l (stripTy t) n₁ := by
          rw [hst]
          exact parse_now_indep (by rfl) (by simp) d l n₁ n₂
        rw [hst] at hpi
        rcases hp : parseDefaultValue d l (stripTy t) n₁ with e | ⟨ty, v'⟩ <;>
          rw [hst] at hp
        · refine ⟨?_, ?_⟩ <;> simp [fieldStep, stripTy, hst, hd, hp, hpi]
        · rcases hset : setUnexportedField t ty v' with _ | v''
          · refine ⟨?_, ?_⟩ <;>
              simp [fieldStep, stripTy, hst, hd, hp, hpi, hset]
          · refine ⟨?_, ?_⟩ <;>
              simp [fieldStep, stripTy, hst, hd, hp, hpi, hset]
      · refine ⟨?_, ?_⟩ <;> simp [fieldStep, stripTy, hst, hd])
  termination_by f => (sizeOf f, 1)
  decreasing_by all_goals (simp_wf; omega)

theorem idem_fillFields (n₁ n₂ : Nat) : ∀ (acc : FillOut) (fs : Fields),
    maskFields (fillFields n₂ acc (fillFields n₁ acc fs).1).1
      = maskFields (fillFields n₁ acc fs).1 ∧
    (fillFields n₂ acc (fillFields n₁ acc fs).1).2
      = (fillFields n₁ acc fs).2
  | _, .nil => ⟨rfl, rfl⟩
  | acc, .cons f rest => by
    cases h1 : fieldStep n₁ f with
    | mk f1 sr1 =>
      cases h2 : fieldStep n₂ f1 with
      | mk f2 sr2 =>
        have ihf : maskField f2 = maskField f1 ∧ sr2 = sr1 := by
          simpa [h1, h2] using idem_fieldStep n₁ n₂ f
        obtain ⟨ihf1, ihf2⟩ := ihf
        subst ihf2
        cases sr2 with
        | stop o =>
          refine ⟨?_, ?_⟩ <;> simp [fillFields, h1, h2, maskFields, ihf1]
        | setAcc o =>
          cases hr1 : fillFields n₁ o rest with
          | mk rest1 or1 =>
            cases hr2 : fillFields n₂ o rest1 with
            | mk rest2 or2 =>
              have ihr : maskFields rest2 = maskFields rest1 ∧ or2 = or1 := by
                simpa [hr1, hr2] using idem_fillFields n₁ n₂ o rest
              refine ⟨?_, ?_⟩ <;>
                simp [fillFields, h1, h2, hr1, hr2, maskFields, ihf1,
                  ihr.1, ihr.2]
        | keepAcc =>
          cases hr1 : fillFields n₁ acc rest with
          | mk rest1 or1 =>
            cases hr2 : fillFields n₂ acc rest1 with
            | mk rest2 or2 =>
              have ihr : maskFields rest2 = maskFields rest1 ∧ or2 = or1 := by
                simpa [hr1, hr2] using idem_fillFields n₁ n₂ acc rest
              refine ⟨?_, ?_⟩ <;>
                simp [fillFields, h1, h2, hr1, hr2, maskFields, ihf1,
                  ihr.1, ihr.2]
  termination_by acc fs => (sizeOf fs, 0)
  decreasing_by all_goals (simp_wf; omega)

theorem idem_setDefSlice (n₁ n₂ : Nat) : ∀ v : GoVal,
    maskNowAux (setDefSlice n₂ (setDefSlice n₁ v).1).1
      = maskNowAux (setDefSlice n₁ v).1 ∧
    (setDefSlice n₂ (setDefSlice n₁ v).1).2 = (setDefSlice n₁ v).2
  | .vptr _ .none => ⟨rfl, rfl⟩
  | .vptr t (.some w) => by
    cases h1 : setDefSlice n₁ w with
    | mk w1 o1 =>
      cases h2 : setDefSlice n₂ w1 with
      | mk w2 o2 =>
        have ih : maskNowAux w2 = maskNowAux w1 ∧ o2 = o1 := by
          simpa [h1, h2] using idem_setDefSlice n₁ n₂ w
        refine ⟨?_, ?_⟩ <;>
          simp [setDefSlice, h1, h2, maskNowAux, maskOpt, ih.1, ih.2]
  | .vslice ety r xs => by
    cases h1 : fillElems n₁ ety xs with
    | mk xs1 o1 =>
      cases h2 : fillElems n₂ ety xs1 with
      | mk xs2 o2 =>
        have ih : maskElems xs2 = maskElems xs1 ∧ o2 = o1 := by
          simpa [h1, h2] using idem_fillElems n₁ n₂ ety xs
        refine ⟨?_, ?_⟩ <;>
          simp [setDefSlice, h1, h2, maskNowAux, ih.1, ih.2]
  | .vstr _ => ⟨rfl, rfl⟩
  | .vbool _ => ⟨rfl, rfl⟩
  | .vint _ _ => ⟨rfl, rfl⟩
  | .vuint _ _ => ⟨rfl, rfl⟩
  | .vfloat _ _ => ⟨rfl, rfl⟩
  | .vcplx _ _ _ => ⟨rfl, rfl⟩
  | .vdur _ => ⟨rfl, rfl⟩
  | .vtime _ => ⟨rfl, rfl⟩
  | .vuptr _ => ⟨rfl, rfl⟩
  | .vstruct _ => ⟨rfl, rfl⟩
  | .vmap _ _ _ => ⟨rfl, rfl⟩
  termination_by v => (sizeOf v, 0)
  decreasing_by all_goals (simp_wf; omega)

theorem idem_sliceRecurse (n₁ n₂ : Nat) : ∀ v : GoVal,
    maskNowAux (sliceRecurse n₂ (sliceRecurse n₁ v).1).1
      = maskNowAux (sliceRecurse n₁ v).1 ∧
    (sliceRecurse n₂ (sliceRecurse n₁ v).1).2 = (sliceRecurse n₁ v).2
  | .vptr _ .none => ⟨rfl, rfl⟩
  | .vptr t (.some w) => by
    cases h1 : setDefSlice n₁ w with
    | mk w1 o1 =>
      cases h2 : setDefSlice n₂ w1 with
      | mk w2 o2 =>
        have ih : maskNowAux w2 = maskNowAux w1 ∧ o2 = o1 := by
          simpa [h1, h2] using idem_setDefSlice n₁ n₂ w
        refine ⟨?_, ?_⟩ <;>
          simp [sliceRecurse, h1, h2, maskNowAux, maskOpt, ih.1, ih.2]
  | .vslice ety r xs => by
    cases h1 : fillElems n₁ ety xs with
    | mk xs1 o1 =>
      cases h2 : fillElems n₂ ety xs1 with
      | mk xs2 o2 =>
        have ih : maskElems xs2 = maskElems xs1 ∧ o2 = o1 := by
          simpa [h1, h2] using idem_fillElems n₁ n₂ ety xs
        refine ⟨?_, ?_⟩ <;>
          simp [sliceRecurse, h1, h2, maskNowAux, ih.1, ih.2]
  | .vstr _ => ⟨rfl, rfl⟩
  | .vbool _ => ⟨rfl, rfl⟩
  | .vint _ _ => ⟨rfl, rfl⟩
  | .vuint _ _ => ⟨rfl, rfl⟩
  | .vfloat _ _ => ⟨rfl, rfl⟩
  | .vcplx _ _ _ => ⟨rfl, rfl⟩
  | .vdur _ => ⟨rfl, rfl⟩
  | .vtime _ => ⟨rfl, rfl⟩
  | .vuptr _ => ⟨rfl, rfl⟩
  | .vstruct _ => ⟨rfl, rfl⟩
  | .vmap _ _ _ => ⟨rfl, rfl⟩
  termination_by v => (sizeOf v, 0)
  decreasing_by all_goals (simp_wf; omega)

theorem idem_elemDispatch (n₁ n₂ : Nat) (ety : Ty) : ∀ x : GoVal,
    maskNowAux (elemDispatch n₂ ety (elemDispatch n₁ ety x).1).1
      = maskNowAux (elemDispatch n₁ ety x).1 ∧
    (elemDispatch n₂ ety (elemDispatch n₁ ety x).1).2
      = (elemDispatch n₁ ety x).2
  | x => by
    rcases hst : stripTy ety with _ | _ | bits | bits | bits | bits | _ | _ | _
      | t0 | e0 | ⟨kt, vt⟩ | _ <;>
    simp only [elemDispatch, hst] <;>
    first
    | exact idem_structRecurse n₁ n₂ x
    | exact idem_sliceRecurse n₁ n₂ x
    | exact idem_mapRecurse n₁ n₂ x
    | exact ⟨trivial, trivial⟩
  termination_by x => (sizeOf x, 1)
  decreasing_by all_goals (simp_wf; omega)

theorem idem_fillElems (n₁ n₂ : Nat) (ety : Ty) : ∀ xs : Elems,
    maskElems (fillElems n₂ ety (fillElems n₁ ety xs).1).1
      = maskElems (fillElems n₁ ety xs).1 ∧
    (fillElems n₂ ety (fillElems n₁ ety xs).1).2
      = (fillElems n₁ ety xs).2
  | .nil => ⟨rfl, rfl⟩
  | .cons x rest => by
    cases h1 : elemDispatch n₁ ety x with
    | mk x1 o1 =>
      cases h2 : elemDispatch n₂ ety x1 with
      | mk x2 o2 =>
        have ihx : maskNowAux x2 = maskNowAux x1 ∧ o2 = o1 := by
          simpa [h1, h2] using idem_elemDispatch n₁ n₂ ety x
        obtain ⟨ihx1, ihx2⟩ := ihx
        subst ihx2
        cases o2 with
        | ok =>
          cases hr1 : fillElems n₁ ety rest with
          | mk rest1 or1 =>
            cases hr2 : fillElems n₂ ety rest1 with
            | mk rest2 or2 =>
              have ihr : maskElems rest2 = maskElems rest1 ∧ or2 = or1 := by
                simpa [hr1, hr2] using idem_fillElems n₁ n₂ ety rest
              refine ⟨?_, ?_⟩ <;>
                simp [fillElems_cons, h1, h2, hr1, hr2, maskElems,
                  ihx1, ihr.1, ihr.2]
        | err e =>
          refine ⟨?_, ?_⟩ <;>
            simp [fillElems_cons, h1, h2, maskElems, ihx1]
        | panicked p =>
          refine ⟨?_, ?_⟩ <;>
            simp [fillElems_cons, h1, h2, maskElems, ihx1]
  termination_by xs => (sizeOf xs, 0)
  decreasing_by all_goals (simp_wf; omega)

theorem idem_setDefMap (n₁ n₂ : Nat) : ∀ v : GoVal,
    maskNowAux (setDefMap n₂ (setDefMap n₁ v).1).1
      = maskNowAux (setDefMap n₁ v).1 ∧
    (setDefMap n₂ (setDefMap n₁ v).1).2 = (setDefMap n₁ v).2
  | .vptr _ .none => ⟨rfl, rfl⟩
  | .vptr t (.some w) => by
    cases h1 : setDefMap n₁ w with
    | mk w1 o1 =>
      cases h2 : setDefMap n₂ w1 with
      | mk w2 o2 =>
        have ih : maskNowAux w2 = maskNowAux w1 ∧ o2 = o1 := by
          simpa [h1, h2] using idem_setDefMap n₁ n₂ w
        refine ⟨?_, ?_⟩ <;>
          simp [setDefMap, h1, h2, maskNowAux, maskOpt, ih.1, ih.2]
  | .vmap kt vt es => by
    cases h1 : fillEntries n₁ vt es with
    | mk es1 o1 =>
      cases h2 : fillEntries n₂ vt es1 with
      | mk es2 o2 =>
        have ih : maskEntries es2 = maskEntries es1 ∧ o2 = o1 := by
          simpa [h1, h2] using idem_fillEntries n₁ n₂ vt es
        refine ⟨?_, ?_⟩ <;>
          simp [setDefMap, h1, h2, maskNowAux, ih.1, ih.2]
  | .vstr _ => ⟨rfl, rfl⟩
  | .vbool _ => ⟨rfl, rfl⟩
  | .vint _ _ => ⟨rfl, rfl⟩
  | .vuint _ _ => ⟨rfl, rfl⟩
  | .vfloat _ _ => ⟨rfl, rfl⟩
  | .vcplx _ _ _ => ⟨rfl, rfl⟩
  | .vdur _ => ⟨rfl, rfl⟩
  | .vtime _ => ⟨rfl, rfl⟩
  | .vuptr _ => ⟨rfl, rfl⟩
  | .vstruct _ => ⟨rfl, rfl⟩
  | .vslice _ _ _ => ⟨rfl, rfl⟩
  termination_by v => (sizeOf v, 0)
  decreasing_by all_goals (simp_wf; omega)

theorem idem_mapRecurse (n₁ n₂ : Nat) : ∀ v : GoVal,
    maskNowAux (mapRecurse n₂ (mapRecurse n₁ v).1).1
      = maskNowAux (mapRecurse n₁ v).1 ∧
    (mapRecurse n₂ (mapRecurse n₁ v).1).2 = (mapRecurse n₁ v).2
  | .vptr _ .none => ⟨rfl, rfl⟩
  | .vptr t (.some w) => by
    cases h1 : setDefMap n₁ w with
    | mk w1 o1 =>
      cases h2 : setDefMap n₂ w1 with
      | mk w2 o2 =>
        have ih : maskNowAux w2 = maskNowAux w1 ∧ o2 = o1 := by
          simpa [h1, h2] using idem_setDefMap n₁ n₂ w
        refine ⟨?_, ?_⟩ <;>
          simp [mapRecurse, h1, h2, maskNowAux, maskOpt, ih.1, ih.2]
  | .vmap kt vt es => by
    cases h1 : fillEntries n₁ vt es with
    | mk es1 o1 =>
      cases h2 : fillEntries n₂ vt es1 with
      | mk es2 o2 =>
        have ih : maskEntries es2 = maskEntries es1 ∧ o2 = o1 := by
          simpa [h1, h2] using idem_fillEntries n₁ n₂ vt es
        refine ⟨?_, ?_⟩ <;>
          simp [mapRecurse, h1, h2, maskNowAux, ih.1, ih.2]
  | .vstr _ => ⟨rfl, rfl⟩
  | .vbool _ => ⟨rfl, rfl⟩
  | .vint _ _ => ⟨rfl, rfl⟩
  | .vuint _ _ => ⟨rfl, rfl⟩
  | .vfloat _ _ => ⟨rfl, rfl⟩
  | .vcplx _ _ _ => ⟨rfl, rfl⟩
  | .vdur _ => ⟨rfl, rfl⟩
  | .vtime _ => ⟨rfl, rfl⟩
  | .vuptr _ => ⟨rfl, rfl⟩
  | .vstruct _ => ⟨rfl, rfl⟩
  | .vslice _ _ _ => ⟨rfl, rfl⟩
  termination_by v => (sizeOf v, 0)
  decreasing_by all_goals (simp_wf; omega)

theorem idem_fillEntries (n₁ n₂ : Nat) (vt : Ty) : ∀ es : Entries,
    maskEntries (fillEntries n₂ vt (fillEntries n₁ vt es).1).1
      = maskEntries (fillEntries n₁ vt es).1 ∧
    (fillEntries n₂ vt (fillEntries n₁ vt es).1).2
      = (fillEntries n₁ vt es).2
  | .nil => ⟨rfl, rfl⟩
  | .cons k x rest => by
    cases h1 : elemDispatch n₁ vt x with
    | mk x1 o1 =>
      cases o1 with
      | ok =>
        cases h2 : elemDispatch n₂ vt x1 with
        | mk x2 o2 =>
          have ihx : maskNowAux x2 = maskNowAux x1 ∧ o2 = FillOut.ok := by
            simpa [h1, h2] using idem_elemDispatch n₁ n₂ vt x
          obtain ⟨ihx1, ihx2⟩ := ihx
          subst ihx2
          cases hr1 : fillEntries n₁ vt rest with
          | mk rest1 or1 =>
            cases hr2 : fillEntries n₂ vt rest1 with
            | mk rest2 or2 =>
              have ihr : maskEntries rest2 = maskEntries rest1 ∧ or2 = or1 := by
                simpa [hr1, hr2] using idem_fillEntries n₁ n₂ vt rest
              refine ⟨?_, ?_⟩ <;>
                simp [fillEntries_cons, h1, h2, hr1, hr2, maskEntries,
                  ihx1, ihr.1, ihr.2]
      | err e =>
        by_cases hptr : isPtrV x = true
        · cases h2 : elemDispatch n₂ vt x1 with
          | mk x2 o2 =>
            have ihx : maskNowAux x2 = maskNowAux x1 ∧ o2 = FillOut.err e := by
              simpa [h1, h2] using idem_elemDispatch n₁ n₂ vt x
            obtain ⟨ihx1, ihx2⟩ := ihx
            subst ihx2
            have hp1 : isPtrV x1 = true := by
              have hh := elemDispatch_ptr n₁ vt x
              rw [h1] at hh
              simpa [hptr] using hh
            refine ⟨?_, ?_⟩ <;>
              simp [fillEntries_cons, h1, h2, hptr, hp1, maskEntries, ihx1]
        · cases h2 : elemDispatch n₂ vt x with
          | mk x2 o2 =>
            have h2o : o2 = FillOut.err e := by
              have hh := outInv_elemDispatch n₁ n₂ vt x
              rw [h1, h2] at hh
              simpa using hh
            subst h2o
            refine ⟨?_, ?_⟩ <;>
              simp [fillEntries_cons, h1, h2, hptr, maskEntries]
      | panicked p =>
        by_cases hptr : isPtrV x = true
        · cases h2 : elemDispatch n₂ vt x1 with
          | mk x2 o2 =>
            have ihx : maskNowAux x2 = maskNowAux x1
                ∧ o2 = FillOut.panicked p := by
              simpa [h1, h2] using idem_elemDispatch n₁ n₂ vt x
            obtain ⟨ihx1, ihx2⟩ := ihx
            subst ihx2
            have hp1 : isPtrV x1 = true := by
              have hh := elemDispatch_ptr n₁ vt x
              rw [h1] at hh
              simpa [hptr] using hh
            refine ⟨?_, ?_⟩ <;>
              simp [fillEntries_cons, h1, h2, hptr, hp1, maskEntries, ihx1]
        · cases h2 : elemDispatch n₂ vt x with
          | mk x2 o2 =>
            have h2o : o2 = FillOut.panicked p := by
              have hh := outInv_elemDispatch n₁ n₂ vt x
              rw [h1, h2] at hh
              simpa using hh
            subst h2o
            refine ⟨?_, ?_⟩ <;>
              simp [fillEntries_cons, h1, h2, hptr, maskEntries]
  termination_by es => (sizeOf es, 0)
  decreasing_by all_goals (simp_wf; omega)
end

/-! ### Kind preservation and the top-level idempotence theorem -/

theorem valKind_setDefStruct (now : Nat) : ∀ v : GoVal,
    valKind (setDefStruct now v).1 = valKind v
  | .vptr _ .none => rfl
  | .vptr t (.some w) => by
    cases h : setDefStruct now w with
    | mk w' o => simp [setDefStruct, h, valKind]
  | .vstruct fs => by
    cases h : fillFields now .ok fs with
    | mk fs' o => simp [setDefStruct, h, valKind]
  | .vstr _ => rfl
  | .vbool _ => rfl
  | .vint _ _ => rfl
  | .vuint _ _ => rfl
  | .vfloat _ _ => rfl
  | .vcplx _ _ _ => rfl
  | .vdur _ => rfl
  | .vtime _ => rfl
  | .vuptr _ => rfl
  | .vslice _ _ _ => rfl
  | .vmap _ _ _ => rfl

theorem valKind_setDefSlice (now : Nat) : ∀ v : GoVal,
    valKind (setDefSlice now v).1 = valKind v
  | .vptr _ .none => rfl
  | .vptr t (.some w) => by
    cases h : setDefSlice now w with
    | mk w' o => simp [setDefSlice, h, valKind]
  | .vslice ety r xs => by
    cases h : fillElems now ety xs with
    | mk xs' o => simp [setDefSlice, h, valKind]
  | .vstr _ => rfl
  | .vbool _ => rfl
  | .vint _ _ => rfl
  | .vuint _ _ => rfl
  | .vfloat _ _ => rfl
  | .vcplx _ _ _ => rfl
  | .vdur _ => rfl
  | .vtime _ => rfl
  | .vuptr _ => rfl
  | .vstruct _ => rfl
  | .vmap _ _ _ => rfl

theorem valKind_setDefMap (now : Nat) : ∀ v : GoVal,
    valKind (setDefMap now v).1 = valKind v
  | .vptr _ .none => rfl
  | .vptr t (.some w) => by
    cases h : setDefMap now w with
    | mk w' o => simp [setDefMap, h, valKind]
  | .vmap kt vt es => by
    cases h : fillEntries now vt es with
    | mk es' o => simp [setDefMap, h, valKind]
  | .vstr _ => rfl
  | .vbool _ => rfl
  | .vint _ _ => rfl
  | .vuint _ _ => rfl
  | .vfloat _ _ => rfl
  | .vcplx _ _ _ => rfl
  | .vdur _ => rfl
  | .vtime _ => rfl
  | .vuptr _ => rfl
  | .vstruct _ => rfl
  | .vslice _ _ _ => rfl

/-- C8: the defaulting walk is idempotent up to `now` timestamps.
Running `SetDefaults` a second time (at any clock tick) yields a graph
equal to the first run's output on every field except struct fields of
declared type `time.Time` whose default descriptor is the
case-insensitive `now` sentinel (masked by `maskNowAux`), and returns
the same outcome (ok, error, or panic) as the first run. -/
theorem c8_idempotence (g : GoVal) (n₁ n₂ : Nat) :
    maskNowAux (runSetDefaults n₂ (runSetDefaults n₁ g).1).1
      = maskNowAux (runSetDefaults n₁ g).1 ∧
    (runSetDefaults n₂ (runSetDefaults n₁ g).1).2
      = (runSetDefaults n₁ g).2 := by
  rcases hk : stripTy (valKind g) with _ | _ | bits | bits | bits | bits
    | _ | _ | _ | t0 | e0 | ⟨kt, vt⟩ | _
  case ptr => exact absurd hk (stripTy_ne_ptr (valKind g) t0)
  case struct =>
    have hvk : valKind (setDefStruct n₁ g).1 = valKind g :=
      valKind_setDefStruct n₁ g
    simp only [runSetDefaults, hk, hvk]
    exact idem_setDefStruct n₁ n₂ g
  case time =>
    have hvk : valKind (setDefStruct n₁ g).1 = valKind g :=
      valKind_setDefStruct n₁ g
    simp only [runSetDefaults, hk, hvk]
    exact idem_setDefStruct n₁ n₂ g
  case slice =>
    have hvk : valKind (setDefSlice n₁ g).1 = valKind g :=
      valKind_setDefSlice n₁ g
    simp only [runSetDefaults, hk, hvk]
    exact idem_setDefSlice n₁ n₂ g
  case map =>
    have hvk : valKind (setDefMap n₁ g).1 = valKind g :=
      valKind_setDefMap n₁ g
    simp only [runSetDefaults, hk, hvk]
    exact idem_setDefMap n₁ n₂ g
  all_goals (simp only [runSetDefaults, hk]; exact ⟨trivial, trivial⟩)

/-- The README's pointer-default example: `stringVar2 *string` with
`default:"33"`. -/
def c1Struct : GoVal :=
  .vstruct (.cons (.mk "stringVar2" "33" "" (.ptr .str) (.vptr .str .none)) .nil)

/-- C1: evaluation of the code at the failing input.  For an Optional
Reference (pointer) scalar field with a non-empty default descriptor the
walk panics instead of storing a re-wrapped value: `setDefaultsStruct`
passes the pointer-stripped type to `parseDefaultValue`, so the parsed
value is the bare scalar, and `reflect.Value.Set` on the pointer-typed
field panics with a type mismatch.  The second conjunct shows
`parseDefaultValue` itself *would* re-wrap correctly had it been given
the declared pointer type, as the claim describes. -/
theorem c1_pointer_default_panics :
    runSetDefaults 0 c1Struct = (c1Struct, .panicked .setTypeMismatch) ∧
    parseDefaultValue "33" "" (.ptr .str) 0
      = .ok (.ptr .str, .vptr .str (.some (.vstr "33"))) :=
  ⟨rfl, rfl⟩

/-! ## Concrete graphs for the resolution claims

The `person`/`address` graph of the repository's README and tests:
`address.city` holds `"Berlin"`, `fingerprint` a byte slice (backing
array `ref` 0), `adresses1` a two-element slice of records. -/

def fpBytes : Elems :=
  .cons (.vuint 8 72) (.cons (.vuint 8 101) (.cons (.vuint 8 108)
    (.cons (.vuint 8 108) (.cons (.vuint 8 111) .nil))))

def fpBytesMut : Elems :=
  .cons (.vuint 8 0) (.cons (.vuint 8 101) (.cons (.vuint 8 108)
    (.cons (.vuint 8 108) (.cons (.vuint 8 111) .nil))))

def addressVal (city : String) : GoVal :=
  .vstruct (.cons (.mk "street" "" "" .str (.vstr "Tellerstrasse"))
    (.cons (.mk "number" "" "" (.int 64) (.vint 64 29))
    (.cons (.mk "city" "" "" .str (.vstr city))
    (.cons (.mk "ZIP" "" "" .str (.vstr "10553")) .nil))))

def personVal : GoVal :=
  .vstruct (.cons (.mk "firstName" "" "" .str (.vstr "Karl"))
    (.cons (.mk "address" "" "" .struct (addressVal "Berlin"))
    (.cons (.mk "adresses1" "" "" (.slice .struct)
      (.vslice .struct 1 (.cons (addressVal "Berlin")
        (.cons (addressVal "Berlin") .nil))))
    (.cons (.mk "fingerprint" "" "" (.slice (.uint 8))
      (.vslice (.uint 8) 0 fpBytes)) .nil))))

/-! ## Writing through a shared backing array

`updateRefVal r new g` replaces the contents of every slice in `g` whose
backing array is `r` by `new`: this is the effect, on the graph, of
writing `new` through any slice value sharing that backing array — in
particular through a slice returned by path resolution. -/

mutual
def updateRefVal (r : Nat) (new : Elems) : GoVal → GoVal
  | .vslice t r' xs =>
    .vslice t r' (if r' = r then new else updateRefElems r new xs)
  | .vstruct fs => .vstruct (updateRefFields r new fs)
  | .vptr t o => .vptr t (updateRefOpt r new o)
  | .vmap k vt es => .vmap k vt (updateRefEntries r new es)
  | v => v

def updateRefOpt (r : Nat) (new : Elems) : OptVal → OptVal
  | .none => .none
  | .some v => .some (updateRefVal r new v)

def updateRefFields (r : Nat) (new : Elems) : Fields → Fields
  | .nil => .nil
  | .cons (.mk n d l t v) rest =>
    .cons (.mk n d l t (updateRefVal r new v)) (updateRefFields r new rest)

def updateRefElems (r : Nat) (new : Elems) : Elems → Elems
  | .nil => .nil
  | .cons v rest => .cons (updateRefVal r new v) (updateRefElems r new rest)

def updateRefEntries (r : Nat) (new : Elems) : Entries → Entries
  | .nil => .nil
  | .cons k v rest => .cons k (updateRefVal r new v) (updateRefEntries r new rest)
end

/-- C2: resolving `"address.city"` on the person graph returns
`"Berlin"`; a non-existent field name fails with the segment-not-found
error; a path descending past a terminal scalar fails with the
path-too-long error; a sequence index out of bounds fails with the
segment-not-found error. -/
theorem c2_path_resolution :
    GetPathInterface (.vptr .struct (.some personVal)) "address.city"
      = .ok (Option.some (.vstr "Berlin")) ∧
    GetPathInterface (.vptr .struct (.some personVal)) "address.nothere"
      = .error .objNotExists ∧
    GetPathInterface (.vptr .struct (.some personVal)) "firstName.x"
      = .error .pathToLong ∧
    GetPathInterface (.vptr .struct (.some personVal)) "adresses1.5.city"
      = .error .objNotExists :=
  ⟨rfl, rfl, rfl, rfl⟩

/-- C3: a nil Optional Reference reached by the resolver yields the
not-found outcome (nil result, no error) when no path elements remain,
and the path-too-long error when elements remain. -/
theorem c3_nil_reference (t : Ty) (es : List String) (h : es ≠ []) :
    returnPathElement (.vptr t .none) [] = .ok Option.none ∧
    returnPathElement (.vptr t .none) es = .error .pathToLong := by
  refine ⟨rfl, ?_⟩
  simp only [returnPathElement, stripPtrs]
  rw [if_neg h]

/-- C3 witness: `c3_nil_reference` at the pointer type `*string` and the
remaining path `["x"]`. -/
theorem c3_nil_reference_witness :
    returnPathElement (.vptr .str .none) [] = .ok Option.none ∧
    returnPathElement (.vptr .str .none) ["x"] = .error .pathToLong :=
  c3_nil_reference .str ["x"] (by simp)

/-- C9: evaluation of the code at the failing input.  Resolving
`"fingerprint"` returns the byte slice with the same backing array
(`ref` 0) as the one stored in the graph — `getInterfaceOfValue` returns
`objValue.Bytes()`, not a copy — so writing through the returned slice's
backing array changes the value the graph yields for the same path. -/
theorem c9_byte_slice_aliases :
    GetPathInterface (.vptr .struct (.some personVal)) "fingerprint"
      = .ok (Option.some (.vslice (.uint 8) 0 fpBytes)) ∧
    GetPathInterface (.vptr .struct (.some (updateRefVal 0 fpBytesMut personVal)))
        "fingerprint"
      = .ok (Option.some (.vslice (.uint 8) 0 fpBytesMut)) ∧
    fpBytesMut ≠ fpBytes := by
  refine ⟨rfl, rfl, ?_⟩
  intro h
  have h2 : (72 : Nat) = 0 := by
    injection h with h1 _
    injection h1 with _ h3
    exact h3.symm
  simp at h2

/-- C4: the tokenizer maps `"a.b.c"` to `["a","b","c"]`, `"$..foo.bar"` to
`["foo","bar"]`, `"baz[0].qux"` to `["baz","0","qux"]` and `"baz/0/v/qux"`
to `["baz","0","v","qux"]`, each without error. -/
theorem c4_tokenizer_roundtrip :
    parsePath "a.b.c" = .ok ["a", "b", "c"] ∧
    parsePath "$..foo.bar" = .ok ["foo", "bar"] ∧
    parsePath "baz[0].qux" = .ok ["baz", "0", "qux"] ∧
    parsePath "baz/0/v/qux" = .ok ["baz", "0", "v", "qux"] :=
  ⟨rfl, rfl, rfl, rfl⟩

/-- C5 counterexample: the claim says the tokenizer rejects any input
ending with a dangling backslash, but outside of quotes a backslash is an
ordinary separator, so `"foo\"` tokenizes successfully to `["foo"]`
instead of failing. -/
theorem c5_counterexample_dangling_backslash :
    parsePath "foo\\" = .ok ["foo"] := rfl

/-- C5 (amended): `"$..[[0].foo"` fails with the nested-brackets error;
`"$..0].foo"` fails with the close-bracket-without-open error; any input
whose preprocessed form (after prefix stripping and whitespace trimming)
contains a control character fails with some error; an input ending with
a dangling backslash inside quotes (escape mode) fails with the
escape-needs-second-character error; and an input with an unterminated
double quote fails with the quotes-left-open error. -/
theorem c5_tokenizer_errors :
    parsePath "$..[[0].foo" = .error .nestedBrackets ∧
    parsePath "$..0].foo" = .error .lostCloseBracket ∧
    (∀ s : String, (goPreprocess s).any (fun c => decide (c < ' ')) = true →
      ∃ e, parsePath s = .error e) ∧
    parsePath "\"foo\\" = .error .escape2Chars ∧
    parsePath "\"foo" = .error .endQuotesOpen := by
  refine ⟨rfl, rfl, ?_, rfl, rfl⟩
  intro s h
  obtain ⟨e, he⟩ := runTok_control (goPreprocess s) TokSt.init h
  refine ⟨e, ?_⟩
  simp only [parsePath]
  rw [if_neg (goPreprocess_trim_ne_nil h), he]

/-- C5 witness: the control-character clause of `c5_tokenizer_errors`
applied at the concrete input `"a\x01b"`. -/
theorem c5_tokenizer_errors_witness :
    (goPreprocess "a\x01b").any (fun c => decide (c < ' ')) = true ∧
    ∃ e, parsePath "a\x01b" = .error e :=
  ⟨rfl, c5_tokenizer_errors.2.2.1 "a\x01b" rfl⟩

end Piranhas
